import Mathlib

/-!
Verification of `mri_compute_overlap`: a shallow embedding of
`mri_compute_overlap.c` and the properties of its specification.

Conventions of the embedding:

* The program's observable behaviour is the sequence of calls it makes to the
  C library and to the imaging library (`printf`, `fprintf`, `fopen`,
  `fclose`, `MRIread`), recorded as a trace of `Event`s, together with the way
  the process ends (`Status`).  A `printf` call is recorded with its format
  string, copied from the source, and its argument list.
* The imaging library (`MRIread`, `MRIvoxelsInLabel`, `MRIlabelOverlap`), the
  outcome of `fopen`, the timer and the diagnostic flag are parameters,
  collected in `World`.
* A C `int` is an `Int` in the range of 32 bits; the result of an `int`
  operation is wrapped to that range (`wrap32`), as the compiled program does
  (an overflow is undefined in C).  Integer division is `Int.tdiv`.
* A C `float` is an IEEE 754 binary32 number, kept as the rational it denotes:
  every conversion and every operation rounds to the nearest binary32 value,
  ties to even (`f32`).  A division by zero or an overflow yields a non-finite
  value (`FVal.inf`, `FVal.nan`).
* A call on the log handle after `fclose` has undefined behaviour: the run
  ends there with `Status.undefined`, its trace listing the calls up to and
  including that call.
-/

namespace MriComputeOverlap

/-! ## Values and events -/

/-- Value of a C float expression: an exact rational, or the non-finite result
of a division by zero. -/
inductive FVal where
  | fin (q : ℚ)
  | inf (negative : Bool)
  | nan
  deriving DecidableEq

/-- The value of a C `int` expression whose exact result is `x`: `x` wrapped
to 32 bits, two's complement. -/
def wrap32 (x : Int) : Int :=
  (x + 2147483648) % 4294967296 - 2147483648

/-- Rounding of a rational to the nearest integer, ties to the even
neighbour. -/
def round_even (q : ℚ) : Int :=
  let f := ⌊q⌋
  if q - f < 1 / 2 then f
  else if 1 / 2 < q - f then f + 1
  else if f % 2 = 0 then f else f + 1

/-- The power `2 ^ e` for an integer exponent. -/
def pow2 (e : Int) : ℚ :=
  if 0 ≤ e then ((2 ^ e.toNat : Nat) : ℚ) else 1 / ((2 ^ (-e).toNat : Nat) : ℚ)

/-- The binary logarithm of `n`, rounded down (0 for `n < 2`); `fuel` bounds
the number of halvings and `n` itself is enough. -/
def nat_log2 : Nat → Nat → Nat
  | 0, _ => 0
  | fuel + 1, n => if n < 2 then 0 else nat_log2 fuel (n / 2) + 1

/-- The binary exponent of a rational `x ≠ 0`: the `e` with
`2 ^ e ≤ |x| < 2 ^ (e + 1)`. -/
def ilog2 (x : ℚ) : Int :=
  let c : Int := (nat_log2 x.num.natAbs x.num.natAbs : Int) - (nat_log2 x.den x.den : Int)
  if pow2 c ≤ |x| then c else c - 1

/-- Rounding of a rational to binary32 with an unbounded exponent upwards: a
significand of 24 bits, exponents from -126 (below which the subnormal numbers
share the spacing `2 ^ (-149)`), round to nearest, ties to even.  A result of
magnitude `2 ^ 128` or more stands for an overflow. -/
def f32 (x : ℚ) : ℚ :=
  if x = 0 then 0
  else
    (round_even (x / pow2 (max (ilog2 x) (-126) - 23)) : ℚ)
      * pow2 (max (ilog2 x) (-126) - 23)

/-- Float division `a / b` of two binary32 values. -/
def fdiv (a b : ℚ) : FVal :=
  if b = 0 then (if a = 0 then FVal.nan else FVal.inf (decide (a < 0)))
  else if pow2 128 ≤ |f32 (a / b)| then FVal.inf (decide (a / b < 0))
  else FVal.fin (f32 (a / b))

/-- One argument of a printf-style call; a `char *` argument may be NULL. -/
inductive Arg where
  | int (i : Int)
  | str (s : Option String)
  | flt (v : FVal)
  deriving DecidableEq

/-- The library calls the program makes, in the order it makes them. -/
inductive Event where
  /-- `printf(fmt, args...)`: a write to standard output. -/
  | printf (fmt : String) (args : List Arg)
  /-- `fprintf(stderr, fmt, args...)`. -/
  | eprintf (fmt : String) (args : List Arg)
  /-- `MRIread(fname)`. -/
  | MRIread (fname : String)
  /-- `fopen(fname, mode)`, assigned to `log_fp`. -/
  | fopen (fname : String) (mode : String)
  /-- `fprintf(log_fp, fmt, args...)`. -/
  | fprintf (fmt : String) (args : List Arg)
  /-- `fclose(log_fp)`. -/
  | fclose
  deriving DecidableEq

/-- The error kinds passed to `ErrorExit` (declared in `error.h`). -/
inductive ErrorCode where
  | ERROR_NOFILE
  | ERROR_BADFILE
  deriving DecidableEq

/-- How the process ends: `exit(code)`, or `ErrorExit(ecode, fmt, args...)`, or
in undefined behaviour, after which nothing is known about the process. -/
inductive Status where
  | exit (code : Int)
  | ErrorExit (ecode : ErrorCode) (fmt : String) (args : List Arg)
  | undefined
  deriving DecidableEq

/-- A complete run: the calls made and the way the process ended. -/
structure Run where
  trace : List Event
  status : Status
  deriving DecidableEq

/-- The collaborators of the program. `MRI` is the type of loaded volumes.  The
results of `MRIvoxelsInLabel`, `MRIlabelOverlap` and `TimerStop` are C `int`s. -/
structure World (MRI : Type) where
  /-- `MRIread`: `none` is the NULL result. -/
  MRIread : String → Option MRI
  MRIvoxelsInLabel : MRI → Int → Int
  MRIlabelOverlap : MRI → MRI → Int → Int
  /-- Whether `fopen(fname, mode)` returns a non-NULL handle. -/
  fopen : String → String → Bool
  /-- The value `TimerStop(&start)` returns. -/
  TimerStop : Int
  /-- The rounding `nint` of `macros.h`. -/
  nint : ℚ → Int
  DIAG_VERBOSE_ON : Bool

/-- The file-scope variables `Progname`, `log_fname`, `quiet`, `all_flag`. -/
structure Globals where
  Progname : Option String
  log_fname : Option String
  quiet : Int
  all_flag : Int
  deriving DecidableEq

/-! ## C library helpers -/

/-- The character `s[i]` of a C string: the terminating NUL at the end. -/
def cchar (s : String) (i : Nat) : Char :=
  (s.toList.get? i).getD (Char.ofNat 0)

/-- Modelled from the spec: the macro `ISOPTION` of `macros.h`, which is not
part of the sources at hand; the spec's flags (`-q`, `-a`, `-l`, `-u`, `-?`)
all start with a dash. -/
def ISOPTION (c : Char) : Bool :=
  c == '-'

/-- The C library's `toupper` on ASCII. -/
def toupper (c : Char) : Char :=
  c.toUpper

/-- The C library's `isspace` in the C locale. -/
def isspace (c : Char) : Bool :=
  c == ' ' || (9 ≤ c.toNat && c.toNat ≤ 13)

/-- The digit loop of `strtol`: stops at the first character that is no digit;
the value read so far is `acc`. -/
def strtol_digits : List Char → Int → Int
  | [], acc => acc
  | c :: cs, acc =>
    if c.isDigit then strtol_digits cs (10 * acc + ((c.toNat : Int) - 48)) else acc

/-- The C library's `strtol(s, NULL, 10)` with a `long` of 64 bits: leading
white space, an optional sign, decimal digits (0 when there is no digit); a
value out of the range of `long` is replaced by the nearest bound. -/
def strtol (s : String) : Int :=
  let v : Int :=
    match s.toList.dropWhile isspace with
    | '-' :: ds => - strtol_digits ds 0
    | '+' :: ds => strtol_digits ds 0
    | ds => strtol_digits ds 0
  max (-9223372036854775808) (min v 9223372036854775807)

/-- The C library's `atoi`, which glibc defines as `(int) strtol(s, NULL, 10)`:
the conversion to `int` keeps the low 32 bits. -/
def atoi (s : String) : Int :=
  wrap32 (strtol s)

/-! ## The program -/

/-- The two `printf` calls of `usage_exit`. -/
def usage_text (g : Globals) : List Event :=
  [Event.printf "usage: %s [options] <volume 1> <volume 2>\n" [Arg.str g.Progname],
   Event.printf "\ta           - compute overlap of all lables\n" []]

/-- The function `usage_exit(code)`: prints the usage text and exits. -/
def usage_exit (g : Globals) (code : Int) : Run :=
  ⟨usage_text g, Status.exit code⟩

/-- Result of a call of `get_option`: it returns `nargs` (having updated the
globals and possibly written to stderr), or it ends the process. -/
inductive OptResult where
  | ret (nargs : Nat) (g : Globals) (out : List Event)
  | halt (r : Run)
  deriving DecidableEq

/-- The function `get_option(argc, argv)`; `argv` is the list of entries from
the current `argv` pointer on, `argv[1]` is the option token. -/
def get_option (g : Globals) (argv : List String) : OptResult :=
  let c := toupper (cchar (argv.getD 1 "") 1)
  if c = 'Q' then OptResult.ret 0 { g with quiet := 1 } []
  else if c = 'A' then OptResult.ret 0 { g with all_flag := 1 } []
  else if c = 'L' then
    OptResult.ret 1 { g with log_fname := argv.get? 2 }
      [Event.eprintf "logging results to %s\n" [Arg.str (argv.get? 2)]]
  else if c = '?' ∨ c = 'U' then OptResult.halt (usage_exit g 0)
  else OptResult.halt
    ⟨[Event.eprintf "unknown option %s\n" [Arg.str (argv.get? 1)]], Status.exit 1⟩

/-- Result of the option loop of `main`. -/
inductive LoopResult where
  /-- The loop ended; `argv` is the list of entries from the final `argv`
  pointer on, and `argc` is its length. -/
  | done (g : Globals) (argv : List String) (out : List Event)
  | halt (r : Run)
  deriving DecidableEq

/-- The loop `for ( ; argc > 1 && ISOPTION(*argv[1]) ; argc--, argv++)` of
`main`.  `argc` and `argv` move in lock step, so the pair is kept as the list
of entries from `argv` on, `argc` being its length.  (Only `-l` as the very
last token moves `argv` past the terminating NULL: the list is then empty and
`argc` is 0.)  Every iteration shortens the list; `fuel` bounds the number of
iterations and `none` means it ran out. -/
def option_loop : Nat → Globals → List String → List Event → Option LoopResult
  | 0, _, _, _ => none
  | fuel + 1, g, argv, out =>
    if 1 < argv.length ∧ ISOPTION (cchar (argv.getD 1 "") 0) then
      match get_option g argv with
      | OptResult.halt r => some (LoopResult.halt ⟨out ++ r.trace, r.status⟩)
      | OptResult.ret nargs g1 o =>
        option_loop fuel g1 ((argv.drop nargs).drop 1) (out ++ o)
    else some (LoopResult.done g argv out)

/-- The mean `(float)(nvox1+nvox2)/2` of the per-label code: the `int` sum is
converted to `float` and halved. -/
def label_mean (nvox1 nvox2 : Int) : ℚ :=
  f32 (f32 ((wrap32 (nvox1 + nvox2) : Int) : ℚ) / 2)

/-- The expression `100.0f*(float)abs(nvox1-nvox2)/nvox_mean`: the `int`
`abs(nvox1-nvox2)` is converted to `float`, multiplied and divided in
`float`. -/
def volume_diff (nvox1 nvox2 : Int) (nvox_mean : ℚ) : FVal :=
  fdiv (f32 (100 * f32 ((wrap32 |wrap32 (nvox1 - nvox2)| : Int) : ℚ))) nvox_mean

/-- The expression `100.0f*(float)nshared/nvox_mean`. -/
def volume_overlap (nshared : Int) (nvox_mean : ℚ) : FVal :=
  fdiv (f32 (100 * f32 (nshared : ℚ))) nvox_mean

/-- The body of the loop over all labels (the `#if 1` branch), for label
`lno`; `log_fp` tells whether the pointer `log_fp` is non-NULL. -/
def all_body {MRI : Type} (w : World MRI) (mri1 mri2 : MRI) (log_fp : Bool)
    (lno : Int) : List Event :=
  let nvox1 := w.MRIvoxelsInLabel mri1 lno
  let nvox2 := w.MRIvoxelsInLabel mri2 lno
  if nvox1 = 0 ∧ nvox2 = 0 then []
  else
    let nvox_mean := label_mean nvox1 nvox2
    let nshared := w.MRIlabelOverlap mri1 mri2 lno
    [Event.printf "volume diff = |(%d - %d)| / %2.1f = %2.2f\n"
       [Arg.int nvox1, Arg.int nvox2, Arg.flt (FVal.fin nvox_mean),
        Arg.flt (volume_diff nvox1 nvox2 nvox_mean)],
     Event.printf "volume overlap = %d / %2.1f = %2.2f\n"
       [Arg.int nshared, Arg.flt (FVal.fin nvox_mean),
        Arg.flt (volume_overlap nshared nvox_mean)]]
    ++ (if log_fp then
          [Event.fprintf "%d  %2.2f  %2.2f\n"
            [Arg.int lno, Arg.flt (volume_diff nvox1 nvox2 nvox_mean),
             Arg.flt (volume_overlap nshared nvox_mean)]]
        else [])

/-- The loop `for (lno = 0 ; lno < 1000 ; lno++)`, entered with `lno`; `fuel`
bounds the number of iterations. -/
def all_loop {MRI : Type} (w : World MRI) (mri1 mri2 : MRI) (log_fp : Bool) :
    Nat → Int → List Event
  | 0, _ => []
  | fuel + 1, lno =>
    if lno < 1000 then
      all_body w mri1 mri2 log_fp lno ++ all_loop w mri1 mri2 log_fp fuel (lno + 1)
    else []

/-- The running sums `total_nvox1`, `total_nvox2`, `total_nshared` and the
counter `nlabels` of the loop over the label arguments. -/
structure Totals where
  total_nvox1 : Int
  total_nvox2 : Int
  total_nshared : Int
  nlabels : Int
  deriving DecidableEq

/-- The `printf` calls of one iteration of the loop over the label arguments,
for the argument `arg` (`argv[i]`): the block `if (!quiet) { ... }`. -/
def label_console {MRI : Type} (w : World MRI) (mri1 mri2 : MRI) (g : Globals)
    (arg : String) : List Event :=
  let lno := atoi arg
  let nvox1 := w.MRIvoxelsInLabel mri1 lno
  let nvox2 := w.MRIvoxelsInLabel mri2 lno
  let nvox_mean := label_mean nvox1 nvox2
  let nshared := w.MRIlabelOverlap mri1 mri2 lno
  if g.quiet = 0 then
    [Event.printf "label %d: volume diff = |(%d - %d)| / %2.1f = %2.2f\n"
       [Arg.int lno, Arg.int nvox1, Arg.int nvox2, Arg.flt (FVal.fin nvox_mean),
        Arg.flt (volume_diff nvox1 nvox2 nvox_mean)],
     Event.printf "label %d: volume overlap = %d / %2.1f = %2.2f\n"
       [Arg.int lno, Arg.int nshared, Arg.flt (FVal.fin nvox_mean),
        Arg.flt (volume_overlap nshared nvox_mean)]]
  else []

/-- The call `fprintf(log_fp, ...)` of one iteration of the loop over the label
arguments. -/
def label_log_line {MRI : Type} (w : World MRI) (mri1 mri2 : MRI) (arg : String) : Event :=
  let lno := atoi arg
  let nvox1 := w.MRIvoxelsInLabel mri1 lno
  let nvox2 := w.MRIvoxelsInLabel mri2 lno
  let nvox_mean := label_mean nvox1 nvox2
  let nshared := w.MRIlabelOverlap mri1 mri2 lno
  Event.fprintf "%2.2f  %2.2f\n"
    [Arg.flt (volume_diff nvox1 nvox2 nvox_mean),
     Arg.flt (volume_overlap nshared nvox_mean)]

/-- The calls made by one iteration of the loop over the label arguments in
which the log handle, if there is one, is open: the console block, then the
block `if (log_fp) { fprintf(log_fp, ...) ; fclose(log_fp) ; }`. -/
def label_body {MRI : Type} (w : World MRI) (mri1 mri2 : MRI) (g : Globals)
    (log_fp : Bool) (arg : String) : List Event :=
  label_console w mri1 mri2 g arg
  ++ (if log_fp then [label_log_line w mri1 mri2 arg, Event.fclose] else [])

/-- The sums after one iteration of the loop over the label arguments. -/
def label_add {MRI : Type} (w : World MRI) (mri1 mri2 : MRI) (t : Totals)
    (arg : String) : Totals :=
  let lno := atoi arg
  { total_nvox1 := wrap32 (t.total_nvox1 + w.MRIvoxelsInLabel mri1 lno)
    total_nvox2 := wrap32 (t.total_nvox2 + w.MRIvoxelsInLabel mri2 lno)
    total_nshared := wrap32 (t.total_nshared + w.MRIlabelOverlap mri1 mri2 lno)
    nlabels := wrap32 (t.nlabels + 1) }

/-- The loop `for (i = 3 ; i < argc ; i++)` over the label arguments
`argv[3..]`.  `log_fp` tells whether the pointer `log_fp` is non-NULL, which
the loop does not change (`fclose` leaves the pointer as it is); `is_open`
tells whether the handle behind it is still open.  The result is the calls
made and the sums after the loop, or `none` for the sums when the loop runs
into the `fprintf` on a closed handle, whose behaviour is undefined. -/
def label_loop {MRI : Type} (w : World MRI) (mri1 mri2 : MRI) (g : Globals)
    (log_fp : Bool) : List String → Bool → Totals → List Event × Option Totals
  | [], _, t => ([], some t)
  | arg :: rest, is_open, t =>
    if log_fp = true ∧ is_open = false then
      (label_console w mri1 mri2 g arg ++ [label_log_line w mri1 mri2 arg], none)
    else
      let r := label_loop w mri1 mri2 g log_fp rest (is_open && !log_fp)
        (label_add w mri1 mri2 t arg)
      (label_body w mri1 mri2 g log_fp arg ++ r.1, r.2)

/-- The block `if (nlabels > 1) { ... }` after the loop over the label
arguments; the mean is `(total_nvox1 + total_nvox2) / 2`, an `int` division
whose result is converted to the float `nvox_mean`. -/
def total_text (t : Totals) : List Event :=
  if 1 < t.nlabels then
    let nvox_mean : ℚ :=
      f32 ((Int.tdiv (wrap32 (t.total_nvox1 + t.total_nvox2)) 2 : Int) : ℚ)
    [Event.printf "total: volume diff = |(%d - %d)| / %2.1f = %2.2f\n"
       [Arg.int t.total_nvox1, Arg.int t.total_nvox2, Arg.flt (FVal.fin nvox_mean),
        Arg.flt (volume_diff t.total_nvox1 t.total_nvox2 nvox_mean)],
     Event.printf "total: volume overlap = %d / %2.1f = %2.2f\n"
       [Arg.int t.total_nshared, Arg.flt (FVal.fin nvox_mean),
        Arg.flt (volume_overlap t.total_nshared nvox_mean)]]
  else []

/-- The branch `if (all_flag) { ... } else { ... }` of `main`: the calls made,
and whether the branch runs to its end (`false`: it stops in undefined
behaviour).  (The two `MRIclone` results of the first branch are never used and
the calls write nothing; they leave no event.) -/
def run_mode {MRI : Type} (w : World MRI) (mri1 mri2 : MRI) (g : Globals)
    (log_fp : Bool) (labels : List String) : List Event × Bool :=
  if g.all_flag ≠ 0 then
    (all_loop w mri1 mri2 log_fp 1000 0 ++ (if log_fp then [Event.fclose] else []), true)
  else
    match label_loop w mri1 mri2 g log_fp labels true ⟨0, 0, 0, 0⟩ with
    | (evs, some t) => (evs ++ total_text t, true)
    | (evs, none) => (evs, false)

/-- The end of `main`: the elapsed time goes to stderr when diagnostics are
verbose, and the process exits with code 0. -/
def timer_text {MRI : Type} (w : World MRI) : List Event :=
  let msec := w.TimerStop
  let seconds := w.nint (f32 (f32 (msec : ℚ) / 1000))
  let minutes := Int.tdiv seconds 60
  let seconds := Int.tmod seconds 60
  if w.DIAG_VERBOSE_ON then
    [Event.eprintf "overlap calculation took %d minutes and %d seconds.\n"
       [Arg.int minutes, Arg.int seconds]]
  else []

/-- The run from the branch on `all_flag` to the end of `main`, after the
calls `pre`. -/
def finish {MRI : Type} (w : World MRI) (mri1 mri2 : MRI) (g : Globals)
    (log_fp : Bool) (labels : List String) (pre : List Event) : Run :=
  if (run_mode w mri1 mri2 g log_fp labels).2 = true then
    ⟨pre ++ (run_mode w mri1 mri2 g log_fp labels).1 ++ timer_text w, Status.exit 0⟩
  else
    ⟨pre ++ (run_mode w mri1 mri2 g log_fp labels).1, Status.undefined⟩

/-- The part of `main` after the option loop: `argv` is the list of entries
from the final `argv` pointer on (`argc` is its length), `out` the calls made
so far. -/
def main_body {MRI : Type} (w : World MRI) (g : Globals) (argv : List String)
    (out : List Event) : Run :=
  match argv with
  | _ :: f1 :: f2 :: labels =>
    match w.MRIread f1 with
    | none =>
      ⟨out ++ [Event.MRIread f1],
       Status.ErrorExit ErrorCode.ERROR_NOFILE "%s: could not read volume from %s"
         [Arg.str g.Progname, Arg.str (some f1)]⟩
    | some mri1 =>
      match w.MRIread f2 with
      | none =>
        ⟨out ++ [Event.MRIread f1, Event.MRIread f2],
         Status.ErrorExit ErrorCode.ERROR_NOFILE "%s: could not read volume from %s"
           [Arg.str g.Progname, Arg.str (some f2)]⟩
      | some mri2 =>
        match g.log_fname with
        | some fname =>
          if w.fopen fname "a+" then
            finish w mri1 mri2 g true labels
              (out ++ [Event.MRIread f1, Event.MRIread f2, Event.fopen fname "a+"])
          else
            ⟨out ++ [Event.MRIread f1, Event.MRIread f2, Event.fopen fname "a+"],
             Status.ErrorExit ErrorCode.ERROR_BADFILE "%s: could not open %s for writing"
               [Arg.str g.Progname, Arg.str (some fname)]⟩
        | none =>
          finish w mri1 mri2 g false labels (out ++ [Event.MRIread f1, Event.MRIread f2])
  | _ =>
    ⟨out ++ (usage_exit g 1).trace, (usage_exit g 1).status⟩

/-- The initial values of the file-scope variables, after
`Progname = argv[0]`. -/
def init_globals (argv : List String) : Globals :=
  { Progname := argv.head?, log_fname := none, quiet := 0, all_flag := 0 }

/-- The function `main(argc, argv)`, with `argc = argv.length`; `none` would
mean that the option loop ran out of fuel. -/
def main {MRI : Type} (w : World MRI) (argv : List String) : Option Run :=
  match option_loop (argv.length + 1) (init_globals argv) argv [] with
  | none => none
  | some (LoopResult.halt r) => some r
  | some (LoopResult.done g av out) => some (main_body w g av out)

/-! ## Rendering of the output -/

/-- The decimal digits of `n`, padded with zeros on the left to `width`. -/
def pad_digits (width n : Nat) : String :=
  String.mk (List.replicate (width - (toString n).length) '0') ++ toString n

/-- The conversion `%2.<prec>f` of a finite value (`prec > 0`; the minimum
width 2 never pads). -/
def show_fixed (prec : Nat) (q : ℚ) : String :=
  let r := (round_even (|q| * 10 ^ prec)).toNat
  (if q < 0 then "-" else "") ++ toString (r / 10 ^ prec) ++ "."
    ++ pad_digits prec (r % 10 ^ prec)

/-- The conversion `%2.<prec>f` of a float value (the NaN of a division of
zero by zero has its sign bit set on x86 and is printed as `-nan`). -/
def show_float (prec : Nat) : FVal → String
  | FVal.fin q => show_fixed prec q
  | FVal.inf false => "inf"
  | FVal.inf true => "-inf"
  | FVal.nan => "-nan"

/-- The text printed for a format string and its arguments, for the
conversions the program uses: `%d`, `%s`, `%2.1f` and `%2.2f`. -/
def format : List Char → List Arg → String
  | '%' :: 'd' :: cs, Arg.int i :: args => toString i ++ format cs args
  | '%' :: 's' :: cs, Arg.str s :: args => s.getD "(null)" ++ format cs args
  | '%' :: '2' :: '.' :: '1' :: 'f' :: cs, Arg.flt v :: args =>
    show_float 1 v ++ format cs args
  | '%' :: '2' :: '.' :: '2' :: 'f' :: cs, Arg.flt v :: args =>
    show_float 2 v ++ format cs args
  | c :: cs, args => String.singleton c ++ format cs args
  | [], _ => ""

/-- The text a call writes (empty for the calls that write nothing). -/
def Event.text : Event → String
  | Event.printf fmt args => format fmt.toList args
  | Event.eprintf fmt args => format fmt.toList args
  | Event.fprintf fmt args => format fmt.toList args
  | _ => ""

/-! ## Projections of a trace -/

/-- The calls that write to standard output. -/
def Event.isStdout : Event → Bool
  | Event.printf _ _ => true
  | _ => false

/-- The calls that write to the log handle. -/
def Event.isLogWrite : Event → Bool
  | Event.fprintf _ _ => true
  | _ => false

/-- The calls that write to stderr. -/
def Event.isStderr : Event → Bool
  | Event.eprintf _ _ => true
  | _ => false

/-- The calls that load a volume. -/
def Event.isMRIread : Event → Bool
  | Event.MRIread _ => true
  | _ => false

/-- The console output of a trace: its `printf` calls, in order. -/
def console (tr : List Event) : List Event :=
  tr.filter Event.isStdout

/-- The lines written to the log by a trace, in order. -/
def log_lines (tr : List Event) : List Event :=
  tr.filter Event.isLogWrite

/-! ## Notions of the specification -/

/-- The positional arguments of a command line (the tokens after `argv[0]`):
what remains once the leading flags `-q`, `-a` and `-l` with its log path are
removed; `none` when a leading flag is none of these. -/
def positional : List String → Option (List String)
  | [] => some []
  | t :: ts =>
    if ISOPTION (cchar t 0) then
      if toupper (cchar t 1) = 'Q' ∨ toupper (cchar t 1) = 'A' then positional ts
      else if toupper (cchar t 1) = 'L' then
        match ts with
        | [] => some []
        | _ :: ts1 => positional ts1
      else none
    else some (t :: ts)

/-- The first leading flag of a command line (the tokens after `argv[0]`)
that is none of `-q`, `-a`, `-l <path>`, if flag parsing reaches one. -/
def stop_flag : List String → Option String
  | [] => none
  | t :: ts =>
    if ISOPTION (cchar t 0) then
      if toupper (cchar t 1) = 'Q' ∨ toupper (cchar t 1) = 'A' then stop_flag ts
      else if toupper (cchar t 1) = 'L' then
        match ts with
        | [] => none
        | _ :: ts1 => stop_flag ts1
      else some t
    else none

/-- The state in which `main` enters the branch on `all_flag`, when it gets
there: the globals left by the option loop, the two loaded volumes, whether
`log_fp` is non-NULL, and the label arguments `argv[3..]`. -/
def mode_entry {MRI : Type} (w : World MRI) (argv : List String) :
    Option (Globals × MRI × MRI × Bool × List String) :=
  match option_loop (argv.length + 1) (init_globals argv) argv [] with
  | some (LoopResult.done g (_ :: f1 :: f2 :: labels) _) =>
    match w.MRIread f1, w.MRIread f2 with
    | some mri1, some mri2 =>
      match g.log_fname with
      | none => some (g, mri1, mri2, false, labels)
      | some fname =>
        if w.fopen fname "a+" then some (g, mri1, mri2, true, labels) else none
    | _, _ => none
  | _ => none

/-- The label ids of the scan over all labels that are reported: those of
0..999, in ascending order, whose two voxel counts are not both zero. -/
def reported_labels {MRI : Type} (w : World MRI) (mri1 mri2 : MRI) : List Int :=
  ((List.range 1000).map Int.ofNat).filter
    (fun l => ¬ (w.MRIvoxelsInLabel mri1 l = 0 ∧ w.MRIvoxelsInLabel mri2 l = 0))

/-- The aggregate lines: the `printf` calls whose format starts with
`total:`. -/
def Event.isTotal : Event → Bool
  | Event.printf fmt _ => fmt.toList.take 6 = "total:".toList
  | _ => false

/-- The discipline of the log handle along a trace: every `fprintf(log_fp,..)`
and every `fclose(log_fp)` happens while the handle is open; `isOpen` is the
state of the handle before the trace. -/
def log_ok : Bool → List Event → Bool
  | _, [] => true
  | _, Event.fopen _ _ :: es => log_ok true es
  | isOpen, Event.fprintf _ _ :: es => isOpen && log_ok isOpen es
  | isOpen, Event.fclose :: es => isOpen && log_ok false es
  | isOpen, _ :: es => log_ok isOpen es

/-- The calls on the log handle. -/
def Event.isLogCall : Event → Bool
  | Event.fopen _ _ => true
  | Event.fprintf _ _ => true
  | Event.fclose => true
  | _ => false

/-! ## A world given by tables -/

/-- A world with two volumes, stored as `vol1` and `vol2`, whose voxel counts
per label are `c1` and `c2` and whose shared counts are `sh`; every file can
be opened. -/
def table_world (c1 c2 sh : Int → Int) : World Bool :=
  { MRIread := fun f =>
      if f = "vol1" then some true else if f = "vol2" then some false else none
    MRIvoxelsInLabel := fun m l => if m then c1 l else c2 l
    MRIlabelOverlap := fun m1 m2 l => if m1 = m2 then (if m1 then c1 l else c2 l) else sh l
    fopen := fun _ _ => true
    TimerStop := 0
    nint := fun q => ⌊q + 1 / 2⌋
    DIAG_VERBOSE_ON := false }

/-- The counts of the specification's example: labels 5 and 12. -/
def example_c1 (l : Int) : Int :=
  if l = 5 then 100 else if l = 12 then 50 else 0

/-- The counts of the second volume of the specification's example. -/
def example_c2 (l : Int) : Int :=
  if l = 5 then 80 else if l = 12 then 50 else 0

/-- The shared counts of the specification's example. -/
def example_sh (l : Int) : Int :=
  if l = 5 then 70 else if l = 12 then 50 else 0

/-- Voxel counts of the first volume whose sum over labels 5 and 12 is 3. -/
def odd_c1 (l : Int) : Int :=
  if l = 5 then 2 else if l = 12 then 1 else 0

/-- Voxel counts of the second volume whose sum over labels 5 and 12 is 2. -/
def odd_c2 (l : Int) : Int :=
  if l = 5 then 1 else if l = 12 then 1 else 0

/-- Shared counts for `odd_c1` and `odd_c2`. -/
def odd_sh (l : Int) : Int :=
  if l = 5 then 1 else if l = 12 then 1 else 0

/-- Counts of two volumes that agree on label 7 except for their size: 20000
voxels each. -/
def tie_c (l : Int) : Int :=
  if l = 7 then 20000 else 0

/-- Shared counts for `tie_c`: 3 voxels of label 7. -/
def tie_sh (l : Int) : Int :=
  if l = 7 then 3 else 0

/-- Counts of a volume with 671091 voxels of label 7. -/
def big_c (l : Int) : Int :=
  if l = 7 then 671091 else 0

/-- Counts of a volume without voxels of label 7. -/
def zero_c (_ : Int) : Int :=
  0

/-! ## Rounding to binary32 -/

theorem round_even_error (q : ℚ) : |((round_even q : Int) : ℚ) - q| ≤ 1 / 2 := by
  have h1 : ((⌊q⌋ : Int) : ℚ) ≤ q := Int.floor_le q
  have h2 : q < ((⌊q⌋ : Int) : ℚ) + 1 := Int.lt_floor_add_one q
  unfold round_even
  simp only
  split_ifs with ha hb hc
  · rw [abs_le]; constructor <;> linarith
  · push_cast; rw [abs_le]; constructor <;> linarith
  · rw [abs_le]; constructor <;> linarith
  · push_cast; rw [abs_le]; constructor <;> linarith

theorem pow2_eq (e : Int) : pow2 e = (2 : ℚ) ^ e := by
  unfold pow2
  split_ifs with h
  · have : e = (e.toNat : Int) := (Int.toNat_of_nonneg h).symm
    conv_rhs => rw [this]
    rw [zpow_natCast]
    push_cast
    rfl
  · have hneg : 0 ≤ -e := by omega
    have : e = -((-e).toNat : Int) := by rw [Int.toNat_of_nonneg hneg]; ring
    conv_rhs => rw [this]
    rw [zpow_neg, zpow_natCast]
    push_cast
    rw [one_div]

theorem pow2_pos (e : Int) : 0 < pow2 e := by
  rw [pow2_eq]; positivity

theorem nat_log2_spec : ∀ (fuel n : Nat), 1 ≤ n → n ≤ fuel →
    2 ^ nat_log2 fuel n ≤ n ∧ n < 2 ^ (nat_log2 fuel n + 1) := by
  intro fuel
  induction fuel with
  | zero => intro n h1 h2; omega
  | succ fuel ih =>
    intro n h1 h2
    rw [nat_log2]
    split_ifs with hlt
    · have : n = 1 := by omega
      subst this
      simp
    · have hn : 2 ≤ n := by omega
      obtain ⟨ha, hb⟩ := ih (n / 2) (by omega) (by omega)
      constructor
      · calc 2 ^ (nat_log2 fuel (n / 2) + 1) = 2 ^ nat_log2 fuel (n / 2) * 2 := pow_succ _ _
          _ ≤ (n / 2) * 2 := Nat.mul_le_mul_right 2 ha
          _ ≤ n := Nat.div_mul_le_self n 2
      · have : n / 2 + 1 ≤ 2 ^ (nat_log2 fuel (n / 2) + 1) := hb
        calc n < (n / 2 + 1) * 2 := by omega
          _ ≤ 2 ^ (nat_log2 fuel (n / 2) + 1) * 2 := Nat.mul_le_mul_right 2 this
          _ = 2 ^ (nat_log2 fuel (n / 2) + 1 + 1) := (pow_succ _ _).symm

theorem ilog2_spec (x : ℚ) (hx : 0 < x) :
    (2 : ℚ) ^ ilog2 x ≤ x ∧ x < (2 : ℚ) ^ (ilog2 x + 1) := by
  have hnum : 0 < x.num := Rat.num_pos.mpr hx
  have hn1 : 1 ≤ x.num.natAbs := by omega
  have hd1 : 1 ≤ x.den := x.den_pos
  obtain ⟨hna, hnb⟩ := nat_log2_spec x.num.natAbs x.num.natAbs hn1 le_rfl
  obtain ⟨hda, hdb⟩ := nat_log2_spec x.den x.den hd1 le_rfl
  have hxeq : x = (x.num.natAbs : ℚ) / (x.den : ℚ) := by
    have h := (Rat.num_div_den x).symm
    have hcast : (x.num : ℚ) = ((x.num.natAbs : Nat) : ℚ) := by
      symm
      calc ((x.num.natAbs : Nat) : ℚ) = (((x.num.natAbs : Nat) : Int) : ℚ) :=
            (Int.cast_natCast _).symm
        _ = (x.num : ℚ) := by rw [Int.natAbs_of_nonneg hnum.le]
    rw [hcast] at h
    exact h
  have hdq : (0 : ℚ) < (x.den : ℚ) := by exact_mod_cast hd1
  have hnaq : (2 : ℚ) ^ (nat_log2 x.num.natAbs x.num.natAbs : Int) ≤ (x.num.natAbs : ℚ) := by
    rw [zpow_natCast]; exact_mod_cast hna
  have hnbq : (x.num.natAbs : ℚ) < (2 : ℚ) ^ ((nat_log2 x.num.natAbs x.num.natAbs : Int) + 1) := by
    have : ((nat_log2 x.num.natAbs x.num.natAbs : Int) + 1)
        = ((nat_log2 x.num.natAbs x.num.natAbs + 1 : Nat) : Int) := by push_cast; ring
    rw [this, zpow_natCast]; exact_mod_cast hnb
  have hdaq : (2 : ℚ) ^ (nat_log2 x.den x.den : Int) ≤ (x.den : ℚ) := by
    rw [zpow_natCast]; exact_mod_cast hda
  have hdbq : (x.den : ℚ) < (2 : ℚ) ^ ((nat_log2 x.den x.den : Int) + 1) := by
    have : ((nat_log2 x.den x.den : Int) + 1) = ((nat_log2 x.den x.den + 1 : Nat) : Int) := by
      push_cast; ring
    rw [this, zpow_natCast]; exact_mod_cast hdb
  set ln : Int := (nat_log2 x.num.natAbs x.num.natAbs : Int) with hln
  set ld : Int := (nat_log2 x.den x.den : Int) with hld
  have h2 : (0 : ℚ) < 2 := by norm_num
  have h2ne : (2 : ℚ) ≠ 0 := by norm_num
  -- x < 2 ^ (ln - ld + 1)
  have hup : x < (2 : ℚ) ^ (ln - ld + 1) := by
    have e1 : (2 : ℚ) ^ (ln - ld + 1) = (2 : ℚ) ^ (ln + 1) / (2 : ℚ) ^ ld := by
      rw [← zpow_sub₀ h2ne]; congr 1; ring
    rw [e1, hxeq, div_lt_div_iff₀ hdq (zpow_pos h2 ld)]
    calc (x.num.natAbs : ℚ) * (2 : ℚ) ^ ld ≤ (x.num.natAbs : ℚ) * (x.den : ℚ) := by
          apply mul_le_mul_of_nonneg_left hdaq; positivity
      _ < (2 : ℚ) ^ (ln + 1) * (x.den : ℚ) := by
          apply mul_lt_mul_of_pos_right hnbq hdq
  -- 2 ^ (ln - ld - 1) ≤ x
  have hlow : (2 : ℚ) ^ (ln - ld - 1) ≤ x := by
    have e1 : (2 : ℚ) ^ (ln - ld - 1) = (2 : ℚ) ^ ln / (2 : ℚ) ^ (ld + 1) := by
      rw [← zpow_sub₀ h2ne]; congr 1; ring
    rw [e1, hxeq, div_le_div_iff₀ (zpow_pos h2 (ld + 1)) hdq]
    calc (2 : ℚ) ^ ln * (x.den : ℚ) ≤ (x.num.natAbs : ℚ) * (x.den : ℚ) := by
          apply mul_le_mul_of_nonneg_right hnaq hdq.le
      _ ≤ (x.num.natAbs : ℚ) * (2 : ℚ) ^ (ld + 1) := by
          apply mul_le_mul_of_nonneg_left hdbq.le; positivity
  unfold ilog2
  simp only
  rw [← hln, ← hld, abs_of_pos hx, pow2_eq]
  split_ifs with hc
  · exact ⟨hc, hup⟩
  · refine ⟨hlow, ?_⟩
    have : ln - ld - 1 + 1 = ln - ld := by ring
    rw [this]
    exact lt_of_not_le hc

theorem f32_zero : f32 0 = 0 := by
  simp [f32]

theorem f32_error (x : ℚ) (hx : (2 : ℚ) ^ (-126 : Int) ≤ x) :
    |f32 x - x| ≤ x / 2 ^ 24 := by
  have hpos : 0 < x := lt_of_lt_of_le (by positivity) hx
  obtain ⟨hlo, hhi⟩ := ilog2_spec x hpos
  have h2 : (1 : ℚ) < 2 := by norm_num
  have he : -126 ≤ ilog2 x := by
    have : (2 : ℚ) ^ (-126 : Int) < (2 : ℚ) ^ (ilog2 x + 1) := lt_of_le_of_lt hx hhi
    have := (zpow_lt_zpow_iff_right₀ h2).mp this
    omega
  have hmax : max (ilog2 x) (-126) = ilog2 x := max_eq_left he
  have hulp : (0 : ℚ) < (2 : ℚ) ^ (ilog2 x - 23) := by positivity
  unfold f32
  rw [if_neg (ne_of_gt hpos), hmax, pow2_eq]
  have hr := round_even_error (x / (2 : ℚ) ^ (ilog2 x - 23))
  have hfac : ((round_even (x / (2 : ℚ) ^ (ilog2 x - 23)) : Int) : ℚ) * (2 : ℚ) ^ (ilog2 x - 23) - x
      = (((round_even (x / (2 : ℚ) ^ (ilog2 x - 23)) : Int) : ℚ)
          - x / (2 : ℚ) ^ (ilog2 x - 23)) * (2 : ℚ) ^ (ilog2 x - 23) := by
    field_simp
  rw [hfac, abs_mul, abs_of_pos hulp]
  have hsplit : (2 : ℚ) ^ (ilog2 x - 23) = (2 : ℚ) ^ ilog2 x / 2 ^ 23 := by
    rw [zpow_sub₀ (by norm_num : (2 : ℚ) ≠ 0)]
    norm_num
  calc |((round_even (x / (2 : ℚ) ^ (ilog2 x - 23)) : Int) : ℚ)
          - x / (2 : ℚ) ^ (ilog2 x - 23)| * (2 : ℚ) ^ (ilog2 x - 23)
      ≤ (1 / 2) * (2 : ℚ) ^ (ilog2 x - 23) := by
        apply mul_le_mul_of_nonneg_right hr hulp.le
    _ = (2 : ℚ) ^ ilog2 x / 2 ^ 24 := by rw [hsplit]; ring
    _ ≤ x / 2 ^ 24 := by
        apply div_le_div_of_nonneg_right hlo; positivity

theorem f32_bounds (x : ℚ) (hx : (2 : ℚ) ^ (-126 : Int) ≤ x) :
    x * (1 - 1 / 2 ^ 24) ≤ f32 x ∧ f32 x ≤ x * (1 + 1 / 2 ^ 24) := by
  have h := f32_error x hx
  rw [abs_le] at h
  constructor <;> linarith [h.1, h.2]

/-! ## The per-label values -/

theorem wrap32_of_range (x : Int) (h1 : -2147483648 ≤ x) (h2 : x < 2147483648) :
    wrap32 x = x := by
  unfold wrap32
  omega

/-- The chain of roundings of a percentage, for a rounding `f` that keeps every
`x ≥ t` between `x * α` and `x * β`. -/
theorem ratio_bound_aux (f : ℚ → ℚ) (t α β : ℚ) (ht : 0 < t) (ht1 : t ≤ 1 / 8)
    (ht2 : t * 2 ^ 32 ≤ 25) (hα : 1 / 2 ≤ α) (hβ1 : 1 ≤ β) (hβ : β ≤ 2)
    (hf : ∀ x, t ≤ x → x * α ≤ f x ∧ f x ≤ x * β)
    (n S : ℚ) (hn1 : 1 ≤ n) (hn2 : n ≤ 2 ^ 31) (hS1 : 1 ≤ S) (hS2 : S ≤ 2 ^ 31) :
    0 < f (f S / 2) ∧
    S / 2 * (α * α) ≤ f (f S / 2) ∧ f (f S / 2) ≤ S / 2 * (β * β) ∧
    0 < f (f (100 * f n) / f (f S / 2)) ∧
    f (f (100 * f n) / f (f S / 2)) ≤ 2 ^ 44 ∧
    100 * n / (S / 2) * (α * α / (β * β) * α) ≤ f (f (100 * f n) / f (f S / 2)) ∧
    f (f (100 * f n) / f (f S / 2)) ≤ 100 * n / (S / 2) * (β * β / (α * α) * β) := by
  have hα0 : 0 < α := by linarith
  have hβ0 : 0 < β := by linarith
  have hS0 : (0 : ℚ) < S := by linarith
  have hn0 : (0 : ℚ) < n := by linarith
  -- the mean
  obtain ⟨hs1, hs2⟩ := hf S (by linarith only [ht1, hS1])
  have hfS : 1 / 2 ≤ f S := by
    have : 1 * (1 / 2) ≤ S * α := mul_le_mul hS1 hα (by norm_num) hS0.le
    linarith only [this, hs1]
  obtain ⟨hm1, hm2⟩ := hf (f S / 2) (by linarith only [ht1, hfS])
  have hmlow : S / 2 * (α * α) ≤ f (f S / 2) := by
    have : S * α / 2 * α ≤ f S / 2 * α :=
      mul_le_mul_of_nonneg_right (by linarith only [hs1]) hα0.le
    calc S / 2 * (α * α) = S * α / 2 * α := by ring
      _ ≤ f S / 2 * α := this
      _ ≤ f (f S / 2) := hm1
  have hmup : f (f S / 2) ≤ S / 2 * (β * β) := by
    have : f S / 2 * β ≤ S * β / 2 * β :=
      mul_le_mul_of_nonneg_right (by linarith only [hs2]) hβ0.le
    calc f (f S / 2) ≤ f S / 2 * β := hm2
      _ ≤ S * β / 2 * β := this
      _ = S / 2 * (β * β) := by ring
  have hMpos : 0 < S / 2 * (α * α) := by positivity
  have hmpos : 0 < f (f S / 2) := lt_of_lt_of_le hMpos hmlow
  have hmge : 1 / 8 ≤ f (f S / 2) := by
    have : 1 / 4 * (1 / 2) ≤ f S / 2 * α :=
      mul_le_mul (by linarith only [hfS]) hα (by norm_num) (by linarith only [hfS])
    linarith only [this, hm1]
  have hmle : f (f S / 2) ≤ 2 ^ 32 := by
    have h1 : S / 2 * (β * β) ≤ 2 ^ 31 / 2 * (2 * 2) := by
      apply mul_le_mul (by linarith only [hS2]) (mul_le_mul hβ hβ hβ0.le (by norm_num))
        (by positivity) (by norm_num)
    have h2 : (2 : ℚ) ^ 31 / 2 * (2 * 2) = 2 ^ 32 := by norm_num
    linarith only [h1, h2, hmup]
  -- the numerator
  obtain ⟨ha1, ha2⟩ := hf n (by linarith only [ht1, hn1])
  have ha : 1 / 2 ≤ f n := by
    have : 1 * (1 / 2) ≤ n * α := mul_le_mul hn1 hα (by norm_num) hn0.le
    linarith only [this, ha1]
  obtain ⟨hb1, hb2⟩ := hf (100 * f n) (by linarith only [ht1, ha])
  have hblow : 100 * n * (α * α) ≤ f (100 * f n) := by
    have : 100 * (n * α) * α ≤ 100 * f n * α :=
      mul_le_mul_of_nonneg_right (by linarith only [ha1]) hα0.le
    calc 100 * n * (α * α) = 100 * (n * α) * α := by ring
      _ ≤ 100 * f n * α := this
      _ ≤ f (100 * f n) := hb1
  have hbup : f (100 * f n) ≤ 100 * n * (β * β) := by
    have : 100 * f n * β ≤ 100 * (n * β) * β :=
      mul_le_mul_of_nonneg_right (by linarith only [ha2]) hβ0.le
    calc f (100 * f n) ≤ 100 * f n * β := hb2
      _ ≤ 100 * (n * β) * β := this
      _ = 100 * n * (β * β) := by ring
  have hBpos : 0 < 100 * n * (α * α) := by positivity
  have hbpos : 0 < f (100 * f n) := lt_of_lt_of_le hBpos hblow
  have hbge : 25 ≤ f (100 * f n) := by
    have : 50 * (1 / 2) ≤ 100 * f n * α :=
      mul_le_mul (by linarith only [ha]) hα (by norm_num) (by linarith only [ha])
    linarith only [this, hb1]
  have hble : f (100 * f n) ≤ 2 ^ 40 := by
    have h1 : 100 * n * (β * β) ≤ 100 * 2 ^ 31 * (2 * 2) := by
      apply mul_le_mul (by linarith only [hn2]) (mul_le_mul hβ hβ hβ0.le (by norm_num))
        (by positivity) (by norm_num)
    have h2 : (100 : ℚ) * 2 ^ 31 * (2 * 2) ≤ 2 ^ 40 := by norm_num
    linarith only [h1, h2, hbup]
  -- the quotient
  have hquot_pos : 0 < f (100 * f n) / f (f S / 2) := div_pos hbpos hmpos
  have hquot_low : t ≤ f (100 * f n) / f (f S / 2) := by
    rw [le_div_iff₀ hmpos]
    have : t * f (f S / 2) ≤ t * 2 ^ 32 := mul_le_mul_of_nonneg_left hmle ht.le
    linarith only [this, ht2, hbge]
  have hquot_le : f (100 * f n) / f (f S / 2) ≤ 2 ^ 43 := by
    rw [div_le_iff₀ hmpos]
    have : (2 : ℚ) ^ 43 * (1 / 8) ≤ 2 ^ 43 * f (f S / 2) :=
      mul_le_mul_of_nonneg_left hmge (by norm_num)
    have h4 : (2 : ℚ) ^ 43 * (1 / 8) = 2 ^ 40 := by norm_num
    linarith only [this, h4, hble]
  obtain ⟨hq1, hq2⟩ := hf (f (100 * f n) / f (f S / 2)) hquot_low
  have hqpos : 0 < f (f (100 * f n) / f (f S / 2)) := by
    have : 0 < f (100 * f n) / f (f S / 2) * α := mul_pos hquot_pos hα0
    linarith only [this, hq1]
  have hqle : f (f (100 * f n) / f (f S / 2)) ≤ 2 ^ 44 := by
    have : f (100 * f n) / f (f S / 2) * β ≤ 2 ^ 43 * 2 :=
      mul_le_mul hquot_le hβ hβ0.le (by norm_num)
    have h4 : (2 : ℚ) ^ 43 * 2 = 2 ^ 44 := by norm_num
    linarith only [this, h4, hq2]
  have hquot_up : f (100 * f n) / f (f S / 2) ≤ 100 * n / (S / 2) * (β * β / (α * α)) := by
    have h1 := div_le_div₀ (by positivity : (0 : ℚ) ≤ 100 * n * (β * β)) hbup hMpos hmlow
    rw [mul_div_mul_comm] at h1
    exact h1
  have hquot_dn : 100 * n / (S / 2) * (α * α / (β * β)) ≤ f (100 * f n) / f (f S / 2) := by
    have h1 := div_le_div₀ hbpos.le hblow hmpos hmup
    rw [mul_div_mul_comm] at h1
    exact h1
  refine ⟨hmpos, hmlow, hmup, hqpos, hqle, ?_, ?_⟩
  · calc 100 * n / (S / 2) * (α * α / (β * β) * α)
        = 100 * n / (S / 2) * (α * α / (β * β)) * α := by ring
      _ ≤ f (100 * f n) / f (f S / 2) * α := mul_le_mul_of_nonneg_right hquot_dn hα0.le
      _ ≤ f (f (100 * f n) / f (f S / 2)) := hq1
  · calc f (f (100 * f n) / f (f S / 2)) ≤ f (100 * f n) / f (f S / 2) * β := hq2
      _ ≤ 100 * n / (S / 2) * (β * β / (α * α)) * β := mul_le_mul_of_nonneg_right hquot_up hβ0.le
      _ = 100 * n / (S / 2) * (β * β / (α * α) * β) := by ring

theorem ratio_bound (n S : ℚ) (hn : n = 0 ∨ 1 ≤ n) (hn2 : n ≤ 2 ^ 31) (hS1 : 1 ≤ S)
    (hS2 : S ≤ 2 ^ 31) :
    0 < f32 (f32 S / 2) ∧
    |f32 (f32 S / 2) - S / 2| ≤ S / 2 / 2 ^ 22 ∧
    ∃ q : ℚ, fdiv (f32 (100 * f32 n)) (f32 (f32 S / 2)) = FVal.fin q ∧ 0 ≤ q ∧
      |q - 100 * n / (S / 2)| ≤ 100 * n / (S / 2) / 2 ^ 21 ∧ (q = 0 ↔ n = 0) := by
  have hS0 : (0 : ℚ) < S / 2 := by linarith
  have hmain := ratio_bound_aux f32 ((2 : ℚ) ^ (-126 : Int)) (1 - 1 / 2 ^ 24) (1 + 1 / 2 ^ 24)
    (by positivity) (by norm_num) (by norm_num) (by norm_num) (by norm_num) (by norm_num)
    f32_bounds
  have hc1 : (1 : ℚ) - 1 / 2 ^ 22 ≤ (1 - 1 / 2 ^ 24) * (1 - 1 / 2 ^ 24) := by norm_num
  have hc2 : ((1 : ℚ) + 1 / 2 ^ 24) * (1 + 1 / 2 ^ 24) ≤ 1 + 1 / 2 ^ 22 := by norm_num
  have hc3 : (1 : ℚ) - 1 / 2 ^ 21
      ≤ (1 - 1 / 2 ^ 24) * (1 - 1 / 2 ^ 24) / ((1 + 1 / 2 ^ 24) * (1 + 1 / 2 ^ 24))
        * (1 - 1 / 2 ^ 24) := by norm_num
  have hc4 : ((1 : ℚ) + 1 / 2 ^ 24) * (1 + 1 / 2 ^ 24) / ((1 - 1 / 2 ^ 24) * (1 - 1 / 2 ^ 24))
        * (1 + 1 / 2 ^ 24) ≤ 1 + 1 / 2 ^ 21 := by norm_num
  -- the mean does not depend on `n`
  obtain ⟨hm0, hm1, hm2, _⟩ := hmain 1 S le_rfl (by norm_num) hS1 hS2
  have hmean : |f32 (f32 S / 2) - S / 2| ≤ S / 2 / 2 ^ 22 := by
    rw [abs_le]
    constructor
    · have h := mul_le_mul_of_nonneg_left hc1 hS0.le
      have e : S / 2 * (1 - 1 / 2 ^ 22) = S / 2 - S / 2 / 2 ^ 22 := by ring
      rw [e] at h
      have := le_trans h hm1
      linarith only [this]
    · have h := mul_le_mul_of_nonneg_left hc2 hS0.le
      have e : S / 2 * (1 + 1 / 2 ^ 22) = S / 2 + S / 2 / 2 ^ 22 := by ring
      rw [e] at h
      have := le_trans hm2 h
      linarith only [this]
  refine ⟨hm0, hmean, ?_⟩
  rcases hn with hn0 | hn1
  · subst hn0
    refine ⟨0, ?_, le_refl _, by simp, by simp⟩
    have hp : ¬ pow2 128 ≤ 0 := not_le.mpr (pow2_pos 128)
    simp [fdiv, f32_zero, ne_of_gt hm0, hp]
  · obtain ⟨_, _, _, hq0, hqle, hq1, hq2⟩ := hmain n S hn1 hn2 hS1 hS2
    have hE : (0 : ℚ) ≤ 100 * n / (S / 2) := by
      have : (0 : ℚ) ≤ n := by linarith only [hn1]
      positivity
    refine ⟨f32 (f32 (100 * f32 n) / f32 (f32 S / 2)), ?_, hq0.le, ?_, ?_⟩
    · have hp : ¬ pow2 128 ≤ |f32 (f32 (100 * f32 n) / f32 (f32 S / 2))| := by
        rw [pow2_eq, abs_of_pos hq0, not_le]
        have : (2 : ℚ) ^ 44 < (2 : ℚ) ^ (128 : Int) := by norm_num
        exact lt_of_le_of_lt hqle this
      simp only [fdiv, ne_of_gt hm0, if_false, hp]
    · rw [abs_le]
      constructor
      · have h := mul_le_mul_of_nonneg_left hc3 hE
        have e : 100 * n / (S / 2) * (1 - 1 / 2 ^ 21)
            = 100 * n / (S / 2) - 100 * n / (S / 2) / 2 ^ 21 := by ring
        rw [e] at h
        have := le_trans h hq1
        linarith only [this]
      · have h := mul_le_mul_of_nonneg_left hc4 hE
        have e : 100 * n / (S / 2) * (1 + 1 / 2 ^ 21)
            = 100 * n / (S / 2) + 100 * n / (S / 2) / 2 ^ 21 := by ring
        rw [e] at h
        have := le_trans hq2 h
        linarith only [this]
    · constructor
      · intro h0; exact absurd h0 (ne_of_gt hq0)
      · intro h0; rw [h0] at hn1; norm_num at hn1

/-! ## The option loop -/

theorem option_loop_short (fuel : Nat) (g : Globals) (argv : List String)
    (out : List Event) (h : argv.length ≤ 1) :
    option_loop (fuel + 1) g argv out = some (LoopResult.done g argv out) := by
  have h1 : ¬ 1 < argv.length := by omega
  simp [option_loop, h1]

theorem option_loop_positional_arg (fuel : Nat) (g : Globals) (a0 t : String)
    (ts : List String) (out : List Event) (h : ISOPTION (cchar t 0) = false) :
    option_loop (fuel + 1) g (a0 :: t :: ts) out
      = some (LoopResult.done g (a0 :: t :: ts) out) := by
  simp [option_loop, h]

theorem option_loop_quiet (fuel : Nat) (g : Globals) (a0 t : String)
    (ts : List String) (out : List Event) (h : ISOPTION (cchar t 0) = true)
    (hc : toupper (cchar t 1) = 'Q') :
    option_loop (fuel + 1) g (a0 :: t :: ts) out
      = option_loop fuel { g with quiet := 1 } (t :: ts) out := by
  simp [option_loop, h, get_option, hc]

theorem option_loop_all (fuel : Nat) (g : Globals) (a0 t : String)
    (ts : List String) (out : List Event) (h : ISOPTION (cchar t 0) = true)
    (hc : toupper (cchar t 1) = 'A') :
    option_loop (fuel + 1) g (a0 :: t :: ts) out
      = option_loop fuel { g with all_flag := 1 } (t :: ts) out := by
  simp [option_loop, h, get_option, hc]

theorem option_loop_log (fuel : Nat) (g : Globals) (a0 t : String)
    (ts : List String) (out : List Event) (h : ISOPTION (cchar t 0) = true)
    (hc : toupper (cchar t 1) = 'L') :
    option_loop (fuel + 1) g (a0 :: t :: ts) out
      = option_loop fuel { g with log_fname := ts.head? } ts
          (out ++ [Event.eprintf "logging results to %s\n" [Arg.str ts.head?]]) := by
  cases ts <;> simp [option_loop, h, get_option, hc]

theorem option_loop_help (fuel : Nat) (g : Globals) (a0 t : String)
    (ts : List String) (out : List Event) (h : ISOPTION (cchar t 0) = true)
    (hq : toupper (cchar t 1) ≠ 'Q') (ha : toupper (cchar t 1) ≠ 'A')
    (hl : toupper (cchar t 1) ≠ 'L')
    (hc : toupper (cchar t 1) = '?' ∨ toupper (cchar t 1) = 'U') :
    option_loop (fuel + 1) g (a0 :: t :: ts) out
      = some (LoopResult.halt ⟨out ++ usage_text g, Status.exit 0⟩) := by
  simp [option_loop, h, get_option, hq, ha, hl, hc, usage_exit]

theorem option_loop_unknown (fuel : Nat) (g : Globals) (a0 t : String)
    (ts : List String) (out : List Event) (h : ISOPTION (cchar t 0) = true)
    (hq : toupper (cchar t 1) ≠ 'Q') (ha : toupper (cchar t 1) ≠ 'A')
    (hl : toupper (cchar t 1) ≠ 'L')
    (hh : toupper (cchar t 1) ≠ '?') (hu : toupper (cchar t 1) ≠ 'U') :
    option_loop (fuel + 1) g (a0 :: t :: ts) out
      = some (LoopResult.halt
          ⟨out ++ [Event.eprintf "unknown option %s\n" [Arg.str (some t)]],
           Status.exit 1⟩) := by
  simp [option_loop, h, get_option, hq, ha, hl, hh, hu]

theorem stop_flag_cons (t : String) (ts : List String) :
    stop_flag (t :: ts) =
      if ISOPTION (cchar t 0) = true then
        if toupper (cchar t 1) = 'Q' ∨ toupper (cchar t 1) = 'A' then stop_flag ts
        else if toupper (cchar t 1) = 'L' then
          match ts with
          | [] => none
          | _ :: ts1 => stop_flag ts1
        else some t
      else none := by
  cases ts <;> rfl

theorem positional_cons (t : String) (ts : List String) :
    positional (t :: ts) =
      if ISOPTION (cchar t 0) = true then
        if toupper (cchar t 1) = 'Q' ∨ toupper (cchar t 1) = 'A' then positional ts
        else if toupper (cchar t 1) = 'L' then
          match ts with
          | [] => some []
          | _ :: ts1 => positional ts1
        else none
      else some (t :: ts) := by
  cases ts <;> rfl

theorem option_loop_stop_flag : ∀ (n : Nat) (args : List String), args.length ≤ n →
    ∀ (fuel : Nat) (g : Globals) (a0 : String) (out : List Event) (tok : String),
    stop_flag args = some tok → args.length < fuel →
    ISOPTION (cchar tok 0) = true ∧ toupper (cchar tok 1) ≠ 'Q' ∧
    toupper (cchar tok 1) ≠ 'A' ∧ toupper (cchar tok 1) ≠ 'L' ∧
    ∃ (g1 : Globals) (a1 : String) (ts : List String) (notes : List Event) (fuel1 : Nat),
      (∀ e ∈ notes, Event.isStderr e = true) ∧ g1.Progname = g.Progname ∧
      option_loop fuel g (a0 :: args) out
        = option_loop (fuel1 + 1) g1 (a1 :: tok :: ts) (out ++ notes) := by
  intro n
  induction n with
  | zero =>
    intro args hlen fuel g a0 out tok hs _
    have : args = [] := List.length_eq_zero.mp (by omega)
    subst this
    simp [stop_flag] at hs
  | succ n ih =>
    intro args hlen fuel g a0 out tok hs hf
    cases args with
    | nil => simp [stop_flag] at hs
    | cons t ts =>
      simp only [List.length_cons] at hlen hf
      obtain ⟨k, rfl⟩ : ∃ k, fuel = k + 1 := ⟨fuel - 1, by omega⟩
      rw [stop_flag_cons] at hs
      by_cases hopt : ISOPTION (cchar t 0) = true
      · rw [if_pos hopt] at hs
        by_cases hqa : toupper (cchar t 1) = 'Q' ∨ toupper (cchar t 1) = 'A'
        · rw [if_pos hqa] at hs
          rcases hqa with hq | ha
          · rw [option_loop_quiet k g a0 t ts out hopt hq]
            exact ih ts (by omega) k { g with quiet := 1 } t out tok hs (by omega)
          · rw [option_loop_all k g a0 t ts out hopt ha]
            exact ih ts (by omega) k { g with all_flag := 1 } t out tok hs (by omega)
        · rw [if_neg hqa] at hs
          by_cases hl : toupper (cchar t 1) = 'L'
          · rw [if_pos hl] at hs
            cases ts with
            | nil => simp at hs
            | cons p ts1 =>
              simp only at hs
              simp only [List.length_cons] at hlen hf
              rw [option_loop_log k g a0 t (p :: ts1) out hopt hl]
              obtain ⟨k1, rfl⟩ : ∃ k1, k = k1 + 1 := ⟨k - 1, by omega⟩
              have hstep := ih ts1 (by omega) (k1 + 1)
                { g with log_fname := (p :: ts1).head? } p
                (out ++ [Event.eprintf "logging results to %s\n" [Arg.str (p :: ts1).head?]])
                tok hs (by omega)
              obtain ⟨h1, h2, h3, h4, g1, a1, ts2, notes, fuel1, hn, hp, heq⟩ := hstep
              refine ⟨h1, h2, h3, h4, g1, a1, ts2,
                Event.eprintf "logging results to %s\n" [Arg.str (p :: ts1).head?] :: notes,
                fuel1, ?_, hp, ?_⟩
              · intro e he
                rcases List.mem_cons.mp he with rfl | he
                · rfl
                · exact hn e he
              · rw [heq]; simp
          · rw [if_neg hl] at hs
            have htok : t = tok := by simpa using hs
            subst htok
            refine ⟨hopt, fun h => hqa (Or.inl h), fun h => hqa (Or.inr h), hl,
              g, a0, ts, [], k, by simp, rfl, by simp⟩
      · rw [if_neg hopt] at hs
        simp at hs

theorem option_loop_positional : ∀ (n : Nat) (args : List String), args.length ≤ n →
    ∀ (fuel : Nat) (g : Globals) (a0 : String) (out : List Event) (rest : List String),
    positional args = some rest → args.length < fuel →
    ∃ (g1 : Globals) (av : List String) (notes : List Event),
      (∀ e ∈ notes, Event.isStderr e = true) ∧ g1.Progname = g.Progname ∧
      ((av = [] ∧ rest = []) ∨ ∃ a1, av = a1 :: rest) ∧
      option_loop fuel g (a0 :: args) out
        = some (LoopResult.done g1 av (out ++ notes)) := by
  intro n
  induction n with
  | zero =>
    intro args hlen fuel g a0 out rest hs hf
    have : args = [] := List.length_eq_zero.mp (by omega)
    subst this
    obtain ⟨k, rfl⟩ : ∃ k, fuel = k + 1 := ⟨fuel - 1, by simp at hf; omega⟩
    have hr : rest = [] := by simpa [positional] using hs.symm
    subst hr
    exact ⟨g, [a0], [], by simp, rfl, Or.inr ⟨a0, rfl⟩,
      by rw [option_loop_short k g [a0] out (by simp)]; simp⟩
  | succ n ih =>
    intro args hlen fuel g a0 out rest hs hf
    cases args with
    | nil =>
      obtain ⟨k, rfl⟩ : ∃ k, fuel = k + 1 := ⟨fuel - 1, by simp at hf; omega⟩
      have hr : rest = [] := by simpa [positional] using hs.symm
      subst hr
      exact ⟨g, [a0], [], by simp, rfl, Or.inr ⟨a0, rfl⟩,
        by rw [option_loop_short k g [a0] out (by simp)]; simp⟩
    | cons t ts =>
      simp only [List.length_cons] at hlen hf
      obtain ⟨k, rfl⟩ : ∃ k, fuel = k + 1 := ⟨fuel - 1, by omega⟩
      rw [positional_cons] at hs
      by_cases hopt : ISOPTION (cchar t 0) = true
      · rw [if_pos hopt] at hs
        by_cases hqa : toupper (cchar t 1) = 'Q' ∨ toupper (cchar t 1) = 'A'
        · rw [if_pos hqa] at hs
          rcases hqa with hq | ha
          · rw [option_loop_quiet k g a0 t ts out hopt hq]
            exact ih ts (by omega) k { g with quiet := 1 } t out rest hs (by omega)
          · rw [option_loop_all k g a0 t ts out hopt ha]
            exact ih ts (by omega) k { g with all_flag := 1 } t out rest hs (by omega)
        · rw [if_neg hqa] at hs
          by_cases hl : toupper (cchar t 1) = 'L'
          · rw [if_pos hl] at hs
            cases ts with
            | nil =>
              have hr : rest = [] := by simpa using hs.symm
              subst hr
              obtain ⟨k1, rfl⟩ : ∃ k1, k = k1 + 1 := ⟨k - 1, by simp at hf; omega⟩
              rw [option_loop_log (k1 + 1) g a0 t [] out hopt hl,
                option_loop_short k1 _ [] _ (by simp)]
              exact ⟨{ g with log_fname := none }, [],
                [Event.eprintf "logging results to %s\n" [Arg.str none]],
                by simp [Event.isStderr], rfl, Or.inl ⟨rfl, rfl⟩, by simp⟩
            | cons p ts1 =>
              simp only at hs
              simp only [List.length_cons] at hlen hf
              rw [option_loop_log k g a0 t (p :: ts1) out hopt hl]
              have hstep := ih ts1 (by omega) k
                { g with log_fname := (p :: ts1).head? } p
                (out ++ [Event.eprintf "logging results to %s\n" [Arg.str (p :: ts1).head?]])
                rest hs (by omega)
              obtain ⟨g1, av, notes, hn, hp, hav, heq⟩ := hstep
              refine ⟨g1, av,
                Event.eprintf "logging results to %s\n" [Arg.str (p :: ts1).head?] :: notes,
                ?_, hp, hav, ?_⟩
              · intro e he
                rcases List.mem_cons.mp he with rfl | he
                · rfl
                · exact hn e he
              · rw [heq]; simp
          · rw [if_neg hl] at hs
            simp at hs
      · rw [if_neg hopt] at hs
        have hr : rest = t :: ts := by simpa using hs.symm
        subst hr
        have hopt2 : ISOPTION (cchar t 0) = false := by simpa using hopt
        exact ⟨g, a0 :: t :: ts, [], by simp, rfl, Or.inr ⟨a0, rfl⟩,
          by rw [option_loop_positional_arg k g a0 t ts out hopt2]; simp⟩

/-! ## Termination of the option loop -/

theorem option_loop_returns : ∀ (fuel : Nat) (g : Globals) (argv : List String)
    (out : List Event), argv.length < fuel →
    ∃ res, option_loop fuel g argv out = some res := by
  intro fuel
  induction fuel with
  | zero => intro g argv out h; omega
  | succ fuel ih =>
    intro g argv out h
    rw [option_loop]
    split_ifs with hc
    · cases hg : get_option g argv with
      | halt r => exact ⟨_, rfl⟩
      | ret nargs g1 o =>
        simp only
        apply ih
        have h1 : 1 < argv.length := hc.1
        simp only [List.length_drop]
        omega
    · exact ⟨_, rfl⟩

theorem main_returns {MRI : Type} (w : World MRI) (argv : List String) :
    ∃ r, main w argv = some r := by
  obtain ⟨res, hres⟩ :=
    option_loop_returns (argv.length + 1) (init_globals argv) argv [] (by omega)
  unfold main
  rw [hres]
  cases res with
  | done g av out => exact ⟨_, rfl⟩
  | halt r => exact ⟨_, rfl⟩

/-! ## The exits of the command line front end -/

theorem finish_trace {MRI : Type} (w : World MRI) (mri1 mri2 : MRI) (g : Globals)
    (log_fp : Bool) (labels : List String) (pre : List Event) :
    ∃ tl, (finish w mri1 mri2 g log_fp labels pre).trace = pre ++ tl ∧
      (finish w mri1 mri2 g log_fp labels pre).status ≠ Status.exit 1 := by
  unfold finish
  by_cases hok : (run_mode w mri1 mri2 g log_fp labels).2 = true
  · rw [if_pos hok]
    exact ⟨(run_mode w mri1 mri2 g log_fp labels).1 ++ timer_text w,
      by simp, by simp⟩
  · rw [if_neg hok]
    exact ⟨(run_mode w mri1 mri2 g log_fp labels).1, rfl, by simp⟩

theorem main_body_loads {MRI : Type} (w : World MRI) (g : Globals) (a1 f1 f2 : String)
    (labels : List String) (out : List Event) :
    ∃ tl, (main_body w g (a1 :: f1 :: f2 :: labels) out).trace
        = out ++ Event.MRIread f1 :: tl ∧
      (∀ mri1, w.MRIread f1 = some mri1 → ∃ tl2, tl = Event.MRIread f2 :: tl2) ∧
      (main_body w g (a1 :: f1 :: f2 :: labels) out).status ≠ Status.exit 1 := by
  cases h1 : w.MRIread f1 with
  | none => exact ⟨[], by simp [main_body, h1], by simp, by simp [main_body, h1]⟩
  | some mri1 =>
    cases h2 : w.MRIread f2 with
    | none =>
      exact ⟨[Event.MRIread f2], by simp [main_body, h1, h2], by simp,
        by simp [main_body, h1, h2]⟩
    | some mri2 =>
      cases h3 : g.log_fname with
      | none =>
        obtain ⟨tl, ht, hs⟩ := finish_trace w mri1 mri2 g false labels
          (out ++ [Event.MRIread f1, Event.MRIread f2])
        exact ⟨Event.MRIread f2 :: tl, by simp [main_body, h1, h2, h3, ht], by simp,
          by simpa [main_body, h1, h2, h3] using hs⟩
      | some fname =>
        by_cases h4 : w.fopen fname "a+" = true
        · obtain ⟨tl, ht, hs⟩ := finish_trace w mri1 mri2 g true labels
            (out ++ [Event.MRIread f1, Event.MRIread f2, Event.fopen fname "a+"])
          exact ⟨Event.MRIread f2 :: Event.fopen fname "a+" :: tl,
            by simp [main_body, h1, h2, h3, h4, ht], by simp,
            by simpa [main_body, h1, h2, h3, h4] using hs⟩
        · exact ⟨[Event.MRIread f2, Event.fopen fname "a+"],
            by simp [main_body, h1, h2, h3, h4], by simp,
            by simp [main_body, h1, h2, h3, h4]⟩

/-- C7: when flag parsing reaches a leading token `tok` that starts with a dash
and whose next character is none of q, a, l, u, ? in either case (all leading
flags before it being `-q`, `-a` or `-l <path>`), the program writes
`unknown option <tok>` to stderr and exits with code 1; everything it has done
before are writes to stderr, so no volume is loaded, no log is opened and
nothing is printed on the console. -/
theorem unknown_option_exit {MRI : Type} (w : World MRI) (a0 : String)
    (args : List String) (tok : String) (hs : stop_flag args = some tok)
    (hh : toupper (cchar tok 1) ≠ '?') (hu : toupper (cchar tok 1) ≠ 'U') :
    ISOPTION (cchar tok 0) = true ∧ toupper (cchar tok 1) ≠ 'Q' ∧
    toupper (cchar tok 1) ≠ 'A' ∧ toupper (cchar tok 1) ≠ 'L' ∧
    ∃ r notes, main w (a0 :: args) = some r ∧ r.status = Status.exit 1 ∧
      r.trace = notes ++ [Event.eprintf "unknown option %s\n" [Arg.str (some tok)]] ∧
      (∀ e ∈ r.trace, Event.isStderr e = true) := by
  obtain ⟨h1, h2, h3, h4, g1, a1, ts, notes, fuel1, hn, _, heq⟩ :=
    option_loop_stop_flag args.length args le_rfl (args.length + 2)
      (init_globals (a0 :: args)) a0 [] tok hs (by omega)
  rw [option_loop_unknown fuel1 g1 a1 tok ts _ h1 h2 h3 h4 hh hu] at heq
  refine ⟨h1, h2, h3, h4,
    ⟨notes ++ [Event.eprintf "unknown option %s\n" [Arg.str (some tok)]], Status.exit 1⟩,
    notes, by simp [main, heq], rfl, rfl, ?_⟩
  · intro e he
    rcases List.mem_append.mp he with he | he
    · exact hn e he
    · have : e = Event.eprintf "unknown option %s\n" [Arg.str (some tok)] := by
        simpa using he
      subst this
      rfl

/-- C8: when all leading flags are `-q`, `-a` or `-l` with its log path, and
`rest` is what remains after them, the program takes the usage-error exit
(usage text printed, exit code 1, no volume loaded) when fewer than two tokens
remain; with two or more it calls `MRIread` on the first remaining token, then
(when that succeeds) on the second, and does not end with exit code 1. -/
theorem usage_error_iff {MRI : Type} (w : World MRI) (a0 : String)
    (args rest : List String) (hp : positional args = some rest) :
    ∃ r notes, main w (a0 :: args) = some r ∧
      (∀ e ∈ notes, Event.isStderr e = true) ∧
      (rest.length < 2 →
        r = ⟨notes ++
              [Event.printf "usage: %s [options] <volume 1> <volume 2>\n" [Arg.str (some a0)],
               Event.printf "\ta           - compute overlap of all lables\n" []],
             Status.exit 1⟩) ∧
      (2 ≤ rest.length →
        ∃ f1 f2 labels tl, rest = f1 :: f2 :: labels ∧
          r.trace = notes ++ Event.MRIread f1 :: tl ∧
          (∀ mri1, w.MRIread f1 = some mri1 → ∃ tl2, tl = Event.MRIread f2 :: tl2) ∧
          r.status ≠ Status.exit 1) := by
  obtain ⟨g1, av, notes, hn, hprog, hav, heq⟩ :=
    option_loop_positional args.length args le_rfl (args.length + 2)
      (init_globals (a0 :: args)) a0 [] rest hp (by omega)
  have hprog2 : g1.Progname = some a0 := by rw [hprog]; rfl
  refine ⟨main_body w g1 av notes, notes, by simp [main, heq], hn, ?_, ?_⟩
  · intro hlt
    rcases hav with ⟨rfl, rfl⟩ | ⟨a1, rfl⟩
    · simp [main_body, usage_exit, usage_text, hprog2]
    · match rest, hlt with
      | [], _ => simp [main_body, usage_exit, usage_text, hprog2]
      | [_], _ => simp [main_body, usage_exit, usage_text, hprog2]
  · intro hge
    rcases hav with ⟨_, rfl⟩ | ⟨a1, rfl⟩
    · simp at hge
    · match rest, hge with
      | f1 :: f2 :: labels, _ =>
        obtain ⟨tl, h1, h2, h3⟩ := main_body_loads w g1 a1 f1 f2 labels notes
        exact ⟨f1, f2, labels, tl, rfl, h1, h2, h3⟩

/-- C9: when flag parsing reaches a help flag (`-u` or `-?` in either case, all
leading flags before it being `-q`, `-a` or `-l <path>`), the program prints
the usage text and exits with code 0, whatever follows the flag; no volume is
loaded. -/
theorem help_exit {MRI : Type} (w : World MRI) (a0 : String)
    (args : List String) (tok : String) (hs : stop_flag args = some tok)
    (hc : toupper (cchar tok 1) = '?' ∨ toupper (cchar tok 1) = 'U') :
    ∃ r notes, main w (a0 :: args) = some r ∧ r.status = Status.exit 0 ∧
      (∀ e ∈ notes, Event.isStderr e = true) ∧
      r.trace = notes ++
        [Event.printf "usage: %s [options] <volume 1> <volume 2>\n" [Arg.str (some a0)],
         Event.printf "\ta           - compute overlap of all lables\n" []] ∧
      (∀ e ∈ r.trace, Event.isMRIread e = false) := by
  obtain ⟨h1, h2, h3, h4, g1, a1, ts, notes, fuel1, hn, hprog, heq⟩ :=
    option_loop_stop_flag args.length args le_rfl (args.length + 2)
      (init_globals (a0 :: args)) a0 [] tok hs (by omega)
  have hprog2 : g1.Progname = some a0 := by rw [hprog]; rfl
  rw [option_loop_help fuel1 g1 a1 tok ts _ h1 h2 h3 h4 hc] at heq
  refine ⟨⟨notes ++ usage_text g1, Status.exit 0⟩, notes, by simp [main, heq], rfl, hn,
    by simp [usage_text, hprog2], ?_⟩
  intro e he
  simp only [List.mem_append, usage_text] at he
  rcases he with he | he
  · have := hn e he
    cases e <;> simp_all [Event.isStderr, Event.isMRIread]
  · simp at he
    rcases he with rfl | rfl <;> rfl

theorem unknown_option_exit_witness :
    stop_flag ["-q", "-l", "log", "-x", "vol1"] = some "-x" ∧
    toupper (cchar "-x" 1) ≠ '?' ∧ toupper (cchar "-x" 1) ≠ 'U' ∧
    ∃ r notes, main (table_world example_c1 example_c2 example_sh)
        ["prog", "-q", "-l", "log", "-x", "vol1"] = some r ∧
      r.status = Status.exit 1 ∧
      r.trace = notes ++ [Event.eprintf "unknown option %s\n" [Arg.str (some "-x")]] ∧
      (∀ e ∈ r.trace, Event.isStderr e = true) :=
  ⟨by decide, by decide, by decide,
   (unknown_option_exit (table_world example_c1 example_c2 example_sh) "prog"
     ["-q", "-l", "log", "-x", "vol1"] "-x" (by decide) (by decide) (by decide)).2.2.2.2⟩

theorem usage_error_iff_witness :
    positional ["-a", "-l", "log", "vol1"] = some ["vol1"] ∧
    ∃ r, main (table_world example_c1 example_c2 example_sh)
        ["prog", "-a", "-l", "log", "vol1"] = some r ∧ r.status = Status.exit 1 := by
  refine ⟨by decide, ?_⟩
  obtain ⟨r, notes, h1, _, h2, _⟩ :=
    usage_error_iff (table_world example_c1 example_c2 example_sh) "prog"
      ["-a", "-l", "log", "vol1"] ["vol1"] (by decide)
  exact ⟨r, h1, by rw [h2 (by decide)]⟩

theorem help_exit_witness :
    stop_flag ["-a", "-U", "-x"] = some "-U" ∧
    (toupper (cchar "-U" 1) = '?' ∨ toupper (cchar "-U" 1) = 'U') ∧
    ∃ r, main (table_world example_c1 example_c2 example_sh)
        ["prog", "-a", "-U", "-x"] = some r ∧ r.status = Status.exit 0 := by
  refine ⟨by decide, by decide, ?_⟩
  obtain ⟨r, notes, h1, h2, _⟩ :=
    help_exit (table_world example_c1 example_c2 example_sh) "prog"
      ["-a", "-U", "-x"] "-U" (by decide) (by decide)
  exact ⟨r, h1, h2⟩

theorem label_mean_eq (v1 v2 : Int) (h1 : 0 ≤ v1) (h2 : 0 ≤ v2) (hmax : v1 + v2 < 2147483648) :
    label_mean v1 v2 = f32 (f32 ((v1 : ℚ) + v2) / 2) := by
  unfold label_mean
  rw [wrap32_of_range (v1 + v2) (by omega) hmax]
  push_cast
  rfl

theorem volume_diff_eq (v1 v2 : Int) (h1 : 0 ≤ v1) (h2 : 0 ≤ v2)
    (hmax : v1 + v2 < 2147483648) (m : ℚ) :
    volume_diff v1 v2 m = fdiv (f32 (100 * f32 |(v1 : ℚ) - v2|)) m := by
  unfold volume_diff
  have ha : |v1 - v2| < 2147483648 := by
    rw [abs_lt]; constructor <;> omega
  rw [wrap32_of_range (v1 - v2) (by omega) (by omega),
    wrap32_of_range |v1 - v2| (by have := abs_nonneg (v1 - v2); omega) ha]
  push_cast
  rfl

theorem label_values (v1 v2 s : Int) (h1 : 0 ≤ v1) (h2 : 0 ≤ v2) (hs : 0 ≤ s)
    (hpos : 0 < v1 + v2) (hmax : v1 + v2 < 2147483648) (hsmax : s < 2147483648) :
    ∃ d o : ℚ,
      volume_diff v1 v2 (label_mean v1 v2) = FVal.fin d ∧
      volume_overlap s (label_mean v1 v2) = FVal.fin o ∧
      |label_mean v1 v2 - ((v1 : ℚ) + v2) / 2| ≤ ((v1 : ℚ) + v2) / 2 / 2 ^ 22 ∧
      0 ≤ d ∧
      |d - 100 * |(v1 : ℚ) - v2| / (((v1 : ℚ) + v2) / 2)|
        ≤ 100 * |(v1 : ℚ) - v2| / (((v1 : ℚ) + v2) / 2) / 2 ^ 21 ∧
      (d = 0 ↔ v1 = v2) ∧
      0 ≤ o ∧
      |o - 100 * (s : ℚ) / (((v1 : ℚ) + v2) / 2)|
        ≤ 100 * (s : ℚ) / (((v1 : ℚ) + v2) / 2) / 2 ^ 21 ∧
      (o = 0 ↔ s = 0) := by
  have hS1 : (1 : ℚ) ≤ (v1 : ℚ) + v2 := by
    have : (1 : Int) ≤ v1 + v2 := by omega
    exact_mod_cast this
  have hS2 : (v1 : ℚ) + v2 ≤ 2 ^ 31 := by
    have : v1 + v2 ≤ 2147483648 := by omega
    have h : ((v1 + v2 : Int) : ℚ) ≤ ((2147483648 : Int) : ℚ) := by exact_mod_cast this
    push_cast at h
    norm_num
    exact h
  -- the difference
  have hdabs : |(v1 : ℚ) - v2| = ((|v1 - v2| : Int) : ℚ) := by push_cast; rfl
  have hd01 : |(v1 : ℚ) - v2| = 0 ∨ 1 ≤ |(v1 : ℚ) - v2| := by
    rw [hdabs]
    rcases (abs_nonneg (v1 - v2)).eq_or_lt with h | h
    · left; rw [← h]; simp
    · right
      have : (1 : Int) ≤ |v1 - v2| := by omega
      exact_mod_cast this
  have hd2 : |(v1 : ℚ) - v2| ≤ 2 ^ 31 := by
    rw [hdabs]
    have : |v1 - v2| ≤ 2147483648 := by
      rw [abs_le]; constructor <;> omega
    have h : ((|v1 - v2| : Int) : ℚ) ≤ ((2147483648 : Int) : ℚ) := by exact_mod_cast this
    norm_num
    exact_mod_cast h
  obtain ⟨_, hmean, d, hd, hd0, hderr, hdz⟩ :=
    ratio_bound |(v1 : ℚ) - v2| ((v1 : ℚ) + v2) hd01 hd2 hS1 hS2
  -- the overlap
  have hs01 : (s : ℚ) = 0 ∨ 1 ≤ (s : ℚ) := by
    rcases hs.eq_or_lt with h | h
    · left; rw [← h]; simp
    · right
      have : (1 : Int) ≤ s := by omega
      exact_mod_cast this
  have hs2 : (s : ℚ) ≤ 2 ^ 31 := by
    have : s ≤ 2147483648 := by omega
    have h : ((s : Int) : ℚ) ≤ ((2147483648 : Int) : ℚ) := by exact_mod_cast this
    norm_num
    exact_mod_cast h
  obtain ⟨_, _, o, ho, ho0, hoerr, hoz⟩ :=
    ratio_bound (s : ℚ) ((v1 : ℚ) + v2) hs01 hs2 hS1 hS2
  refine ⟨d, o, ?_, ?_, ?_, hd0, hderr, ?_, ho0, hoerr, ?_⟩
  · rw [volume_diff_eq v1 v2 h1 h2 hmax, label_mean_eq v1 v2 h1 h2 hmax]
    exact hd
  · rw [label_mean_eq v1 v2 h1 h2 hmax]
    exact ho
  · rw [label_mean_eq v1 v2 h1 h2 hmax]
    exact hmean
  · rw [hdz, abs_eq_zero, sub_eq_zero]
    exact_mod_cast Iff.rfl
  · rw [hoz]
    exact_mod_cast Iff.rfl

/-- C1 (as amended): for counts `v1`, `v2`, `s` that are not negative, with
`0 < v1 + v2 ≤ INT_MAX`, the values a label's output carries, in the loop over
the label arguments as in the scan over all labels, are the binary32 values
`m`, `d`, `o` of the mean, the difference and the overlap; they agree with
`(v1+v2)/2`, `100*|v1-v2|/((v1+v2)/2)` and `100*s/((v1+v2)/2)` within a
relative error of `2^-22` for the mean and `2^-21` for the percentages.  The
output shows the binary32 values: for counts 100, 80, 70 the lines read 22.22
and 77.78, for counts 50, 50, 50 they read 0.00 and 100.00. -/
theorem per_label_values {MRI : Type} (w : World MRI) (mri1 mri2 : MRI) (g : Globals)
    (log_fp : Bool) (arg : String) (lno v1 v2 s : Int)
    (hv1 : 0 ≤ v1) (hv2 : 0 ≤ v2) (hs : 0 ≤ s) (hpos : 0 < v1 + v2)
    (hmax : v1 + v2 < 2147483648) (hsmax : s < 2147483648)
    (h1 : w.MRIvoxelsInLabel mri1 lno = v1) (h2 : w.MRIvoxelsInLabel mri2 lno = v2)
    (h3 : w.MRIlabelOverlap mri1 mri2 lno = s) (harg : atoi arg = lno) :
    (∃ m d o : ℚ,
      label_body w mri1 mri2 g log_fp arg
        = (if g.quiet = 0 then
            [Event.printf "label %d: volume diff = |(%d - %d)| / %2.1f = %2.2f\n"
               [Arg.int lno, Arg.int v1, Arg.int v2, Arg.flt (FVal.fin m),
                Arg.flt (FVal.fin d)],
             Event.printf "label %d: volume overlap = %d / %2.1f = %2.2f\n"
               [Arg.int lno, Arg.int s, Arg.flt (FVal.fin m), Arg.flt (FVal.fin o)]]
           else [])
          ++ (if log_fp = true then
                [Event.fprintf "%2.2f  %2.2f\n" [Arg.flt (FVal.fin d), Arg.flt (FVal.fin o)],
                 Event.fclose]
              else []) ∧
      all_body w mri1 mri2 log_fp lno
        = [Event.printf "volume diff = |(%d - %d)| / %2.1f = %2.2f\n"
             [Arg.int v1, Arg.int v2, Arg.flt (FVal.fin m), Arg.flt (FVal.fin d)],
           Event.printf "volume overlap = %d / %2.1f = %2.2f\n"
             [Arg.int s, Arg.flt (FVal.fin m), Arg.flt (FVal.fin o)]]
          ++ (if log_fp = true then
                [Event.fprintf "%d  %2.2f  %2.2f\n"
                   [Arg.int lno, Arg.flt (FVal.fin d), Arg.flt (FVal.fin o)]]
              else []) ∧
      |m - ((v1 : ℚ) + v2) / 2| ≤ ((v1 : ℚ) + v2) / 2 / 2 ^ 22 ∧
      |d - 100 * |(v1 : ℚ) - v2| / (((v1 : ℚ) + v2) / 2)|
        ≤ 100 * |(v1 : ℚ) - v2| / (((v1 : ℚ) + v2) / 2) / 2 ^ 21 ∧
      |o - 100 * (s : ℚ) / (((v1 : ℚ) + v2) / 2)|
        ≤ 100 * (s : ℚ) / (((v1 : ℚ) + v2) / 2) / 2 ^ 21) ∧
    (label_body (table_world example_c1 example_c2 example_sh) true false
        ⟨some "prog", some "log", 0, 0⟩ true "5").map Event.text
      = ["label 5: volume diff = |(100 - 80)| / 90.0 = 22.22\n",
         "label 5: volume overlap = 70 / 90.0 = 77.78\n", "22.22  77.78\n", ""] ∧
    (label_body (table_world example_c1 example_c2 example_sh) true false
        ⟨some "prog", some "log", 0, 0⟩ true "12").map Event.text
      = ["label 12: volume diff = |(50 - 50)| / 50.0 = 0.00\n",
         "label 12: volume overlap = 50 / 50.0 = 100.00\n", "0.00  100.00\n", ""] ∧
    (all_body (table_world example_c1 example_c2 example_sh) true false true 5).map Event.text
      = ["volume diff = |(100 - 80)| / 90.0 = 22.22\n",
         "volume overlap = 70 / 90.0 = 77.78\n", "5  22.22  77.78\n"] ∧
    (all_body (table_world example_c1 example_c2 example_sh) true false true 12).map Event.text
      = ["volume diff = |(50 - 50)| / 50.0 = 0.00\n",
         "volume overlap = 50 / 50.0 = 100.00\n", "12  0.00  100.00\n"] := by
  obtain ⟨d, o, hd, ho, hmean, _, hderr, _, _, hoerr, _⟩ :=
    label_values v1 v2 s hv1 hv2 hs hpos hmax hsmax
  have hnz : ¬ (v1 = 0 ∧ v2 = 0) := by omega
  refine ⟨⟨label_mean v1 v2, d, o, ?_, ?_, hmean, hderr, hoerr⟩, ?_, ?_, ?_, ?_⟩
  · simp only [label_body, label_console, label_log_line, harg, h1, h2, h3, hd, ho]
  · simp only [all_body, h1, h2, h3, hd, ho, if_neg hnz]
  · decide!
  · decide!
  · decide!
  · decide!

/-- C1 as stated fails: with 16000001 and 15000000 voxels the mean the program
computes is 15500000, not 15500000.5; with 20000 voxels of a label in each
volume, 3 of them shared, the overlap the program computes is not the rational
`100*3/20000` and the program shows it as 0.01, where the rational shows as
0.02. -/
theorem per_label_values_counterexample :
    label_mean 16000001 15000000 = 15500000 ∧
    label_mean 16000001 15000000 ≠ ((16000001 : ℚ) + 15000000) / 2 ∧
    volume_overlap 3 (label_mean 20000 20000)
      ≠ FVal.fin (100 * (3 : ℚ) / (((20000 : ℚ) + 20000) / 2)) ∧
    (all_body (table_world tie_c tie_c tie_sh) true false false 7).map Event.text
      = ["volume diff = |(20000 - 20000)| / 20000.0 = 0.00\n",
         "volume overlap = 3 / 20000.0 = 0.01\n"] ∧
    show_fixed 2 (100 * (3 : ℚ) / (((20000 : ℚ) + 20000) / 2)) = "0.02" := by
  refine ⟨?_, ?_, ?_, ?_, ?_⟩ <;> decide!

theorem per_label_values_witness :
    (0 : Int) ≤ 100 ∧ (0 : Int) ≤ 80 ∧ (0 : Int) ≤ 70 ∧ (0 : Int) < 100 + 80 ∧
    (100 : Int) + 80 < 2147483648 ∧ (70 : Int) < 2147483648 ∧
    (table_world example_c1 example_c2 example_sh).MRIvoxelsInLabel true 5 = 100 ∧
    (table_world example_c1 example_c2 example_sh).MRIvoxelsInLabel false 5 = 80 ∧
    (table_world example_c1 example_c2 example_sh).MRIlabelOverlap true false 5 = 70 ∧
    atoi "5" = 5 ∧
    ∃ m d o : ℚ,
      all_body (table_world example_c1 example_c2 example_sh) true false false 5
        = [Event.printf "volume diff = |(%d - %d)| / %2.1f = %2.2f\n"
             [Arg.int 100, Arg.int 80, Arg.flt (FVal.fin m), Arg.flt (FVal.fin d)],
           Event.printf "volume overlap = %d / %2.1f = %2.2f\n"
             [Arg.int 70, Arg.flt (FVal.fin m), Arg.flt (FVal.fin o)]] ∧
      |d - 100 * |((100 : Int) : ℚ) - (80 : Int)| / ((((100 : Int) : ℚ) + (80 : Int)) / 2)|
        ≤ 100 * |((100 : Int) : ℚ) - (80 : Int)| / ((((100 : Int) : ℚ) + (80 : Int)) / 2)
          / 2 ^ 21 := by
  refine ⟨by decide, by decide, by decide, by decide, by decide, by decide, by decide,
    by decide, by decide, by decide, ?_⟩
  obtain ⟨⟨m, d, o, _, h2, _, h4, _⟩, _⟩ :=
    per_label_values (table_world example_c1 example_c2 example_sh) true false
      ⟨some "prog", none, 0, 0⟩ false "5" 5 100 80 70 (by decide) (by decide) (by decide)
      (by decide) (by decide) (by decide) (by decide) (by decide) (by decide) (by decide)
  exact ⟨m, d, o, by simpa using h2, h4⟩

/-- C10 (as amended): for counts `v1`, `v2`, `s` that are not negative, with
`0 < v1 + v2 ≤ INT_MAX` and `s ≤ min v1 v2`, the per-label values the program
computes are finite binary32 numbers with `0 ≤ overlap ≤ 100 * (1 + 2^-21)` and
`0 ≤ diff ≤ 200 * (1 + 2^-21)`; the difference is 0 exactly when `v1 = v2`; when
one of the counts is zero it lies within `200 * 2^-21` of 200; and it does not
change when the two counts are swapped. -/
theorem per_label_bounds (v1 v2 s : Int) (h1 : 0 ≤ v1) (h2 : 0 ≤ v2) (hs : 0 ≤ s)
    (hpos : 0 < v1 + v2) (hmax : v1 + v2 < 2147483648) (hmin : s ≤ min v1 v2) :
    ∃ d o : ℚ, volume_diff v1 v2 (label_mean v1 v2) = FVal.fin d ∧
      volume_overlap s (label_mean v1 v2) = FVal.fin o ∧
      0 ≤ o ∧ o ≤ 100 * (1 + 1 / 2 ^ 21) ∧ 0 ≤ d ∧ d ≤ 200 * (1 + 1 / 2 ^ 21) ∧
      (d = 0 ↔ v1 = v2) ∧ ((v1 = 0 ∨ v2 = 0) → |d - 200| ≤ 200 / 2 ^ 21) ∧
      volume_diff v2 v1 (label_mean v2 v1) = volume_diff v1 v2 (label_mean v1 v2) := by
  have hs1 : s ≤ v1 := le_trans hmin (min_le_left v1 v2)
  have hs2 : s ≤ v2 := le_trans hmin (min_le_right v1 v2)
  obtain ⟨d, o, hd, ho, _, hd0, hderr, hdz, ho0, hoerr, _⟩ :=
    label_values v1 v2 s h1 h2 hs hpos hmax (by omega)
  have hS : (0 : ℚ) < ((v1 : ℚ) + v2) / 2 := by
    have : (0 : ℚ) < (v1 : ℚ) + v2 := by exact_mod_cast hpos
    positivity
  have ha : (0 : ℚ) ≤ v1 := by exact_mod_cast h1
  have hb : (0 : ℚ) ≤ v2 := by exact_mod_cast h2
  have hsq : (0 : ℚ) ≤ s := by exact_mod_cast hs
  have hsq1 : (s : ℚ) ≤ v1 := by exact_mod_cast hs1
  have hsq2 : (s : ℚ) ≤ v2 := by exact_mod_cast hs2
  have habs : |(v1 : ℚ) - v2| ≤ (v1 : ℚ) + v2 := by
    rw [abs_le]; constructor <;> linarith only [ha, hb]
  have hEo : 100 * (s : ℚ) / (((v1 : ℚ) + v2) / 2) ≤ 100 := by
    rw [div_le_iff₀ hS]; linarith only [hsq1, hsq2]
  have hEo0 : 0 ≤ 100 * (s : ℚ) / (((v1 : ℚ) + v2) / 2) := by positivity
  have hEd : 100 * |(v1 : ℚ) - v2| / (((v1 : ℚ) + v2) / 2) ≤ 200 := by
    rw [div_le_iff₀ hS]; linarith only [habs]
  have hEd0 : 0 ≤ 100 * |(v1 : ℚ) - v2| / (((v1 : ℚ) + v2) / 2) := by positivity
  rw [abs_le] at hderr hoerr
  refine ⟨d, o, hd, ho, ho0, ?_, hd0, ?_, hdz, ?_, ?_⟩
  · have : 100 * (s : ℚ) / (((v1 : ℚ) + v2) / 2) / 2 ^ 21 ≤ 100 / 2 ^ 21 :=
      div_le_div_of_nonneg_right hEo (by positivity)
    linarith only [this, hoerr.2, hEo]
  · have : 100 * |(v1 : ℚ) - v2| / (((v1 : ℚ) + v2) / 2) / 2 ^ 21 ≤ 200 / 2 ^ 21 :=
      div_le_div_of_nonneg_right hEd (by positivity)
    linarith only [this, hderr.2, hEd]
  · intro hz
    have hE : 100 * |(v1 : ℚ) - v2| / (((v1 : ℚ) + v2) / 2) = 200 := by
      rw [div_eq_iff (ne_of_gt hS)]
      rcases hz with h | h
      · subst h
        have : |((0 : Int) : ℚ) - v2| = v2 := by
          rw [Int.cast_zero, zero_sub, abs_neg, abs_of_nonneg hb]
        rw [this]; push_cast; ring
      · subst h
        have : |(v1 : ℚ) - ((0 : Int) : ℚ)| = v1 := by
          rw [Int.cast_zero, sub_zero, abs_of_nonneg ha]
        rw [this]; push_cast; ring
    rw [hE] at hderr
    rw [abs_le]
    constructor <;> linarith only [hderr.1, hderr.2]
  · rw [volume_diff_eq v1 v2 h1 h2 hmax, volume_diff_eq v2 v1 h2 h1 (by omega),
      label_mean_eq v1 v2 h1 h2 hmax, label_mean_eq v2 v1 h2 h1 (by omega),
      abs_sub_comm, add_comm (v2 : ℚ)]

/-- C10 as stated fails: with 671091 voxels of a label in one volume and none
in the other, the difference the program computes is `13107201 / 65536`, which
is more than 200; with 671089 and none it is less than 200; with 1073741824
voxels and 1 voxel it is exactly 200 although neither count is zero; and with
671091 voxels in each volume, all shared, the overlap is more than 100. -/
theorem per_label_bounds_counterexample :
    volume_diff 671091 0 (label_mean 671091 0) = FVal.fin (13107201 / 65536) ∧
    (200 : ℚ) < 13107201 / 65536 ∧
    (all_body (table_world big_c zero_c zero_c) true false false 7).map Event.text
      = ["volume diff = |(671091 - 0)| / 335545.5 = 200.00\n",
         "volume overlap = 0 / 335545.5 = 0.00\n"] ∧
    volume_diff 671089 0 (label_mean 671089 0) = FVal.fin (13107199 / 65536) ∧
    (13107199 : ℚ) / 65536 < 200 ∧
    volume_diff 1073741824 1 (label_mean 1073741824 1) = FVal.fin 200 ∧
    volume_overlap 671091 (label_mean 671091 671091) = FVal.fin (13107201 / 131072) ∧
    (100 : ℚ) < 13107201 / 131072 := by
  refine ⟨?_, ?_, ?_, ?_, ?_, ?_, ?_, ?_⟩ <;> decide!

theorem per_label_bounds_witness :
    (0 : Int) ≤ 100 ∧ (0 : Int) ≤ 80 ∧ (0 : Int) ≤ 70 ∧ (0 : Int) < 100 + 80 ∧
    (100 : Int) + 80 < 2147483648 ∧ (70 : Int) ≤ min 100 80 ∧
    ∃ d o : ℚ, volume_diff 100 80 (label_mean 100 80) = FVal.fin d ∧
      volume_overlap 70 (label_mean 100 80) = FVal.fin o ∧
      0 ≤ o ∧ o ≤ 100 * (1 + 1 / 2 ^ 21) ∧ 0 ≤ d ∧ d ≤ 200 * (1 + 1 / 2 ^ 21) ∧
      (d = 0 ↔ (100 : Int) = 80) ∧
      (((100 : Int) = 0 ∨ (80 : Int) = 0) → |d - 200| ≤ 200 / 2 ^ 21) ∧
      volume_diff 80 100 (label_mean 80 100) = volume_diff 100 80 (label_mean 100 80) :=
  ⟨by decide, by decide, by decide, by decide, by decide, by decide,
   per_label_bounds 100 80 70 (by decide) (by decide) (by decide) (by decide) (by decide)
     (by decide)⟩

/-! ## The two defects -/

/-- C3 (the code at totals 3 and 2): with labels 5 and 12 whose counts sum to
3 in the first volume and 2 in the second, with 2 shared voxels, the
aggregate lines carry the mean 2 (shown as 2.0), the difference 50 and the
overlap 100, where the exact half 5/2 would give 40 and 80. -/
theorem total_mean_truncated :
    (main (table_world odd_c1 odd_c2 odd_sh) ["prog", "vol1", "vol2", "5", "12"]).map
        (fun r => (console r.trace).filter Event.isTotal)
      = some
        [Event.printf "total: volume diff = |(%d - %d)| / %2.1f = %2.2f\n"
           [Arg.int 3, Arg.int 2, Arg.flt (FVal.fin 2), Arg.flt (FVal.fin 50)],
         Event.printf "total: volume overlap = %d / %2.1f = %2.2f\n"
           [Arg.int 2, Arg.flt (FVal.fin 2), Arg.flt (FVal.fin 100)]] ∧
    (main (table_world odd_c1 odd_c2 odd_sh) ["prog", "vol1", "vol2", "5", "12"]).map
        (fun r => ((console r.trace).filter Event.isTotal).map Event.text)
      = some ["total: volume diff = |(3 - 2)| / 2.0 = 50.00\n",
              "total: volume overlap = 2 / 2.0 = 100.00\n"] ∧
    show_float 1 (FVal.fin (((3 : ℚ) + 2) / 2)) = "2.5" ∧
    show_float 2 (FVal.fin (100 * |(3 : ℚ) - 2| / (((3 : ℚ) + 2) / 2))) = "40.00" ∧
    show_float 2 (FVal.fin (100 * (2 : ℚ) / (((3 : ℚ) + 2) / 2))) = "80.00" := by
  refine ⟨?_, ?_, ?_, ?_, ?_⟩ <;> decide!

/-- C4 (the code with a log file and two label arguments): the log handle is
opened once, before the loop; the first iteration writes to it and closes it,
and the second iteration writes to the handle that is already closed, which
is undefined behaviour: the run ends there.  No call reopens the handle, so
its discipline is broken. -/
theorem log_written_after_close :
    (main (table_world example_c1 example_c2 example_sh)
        ["prog", "-l", "log", "vol1", "vol2", "5", "12"]).map
        (fun r => r.trace.filter Event.isLogCall)
      = some
        [Event.fopen "log" "a+",
         Event.fprintf "%2.2f  %2.2f\n"
           [Arg.flt (volume_diff 100 80 (label_mean 100 80)),
            Arg.flt (volume_overlap 70 (label_mean 100 80))],
         Event.fclose,
         Event.fprintf "%2.2f  %2.2f\n"
           [Arg.flt (volume_diff 50 50 (label_mean 50 50)),
            Arg.flt (volume_overlap 50 (label_mean 50 50))]] ∧
    (main (table_world example_c1 example_c2 example_sh)
        ["prog", "-l", "log", "vol1", "vol2", "5", "12"]).map
        (fun r => (r.trace.filter Event.isLogCall).map Event.text)
      = some ["", "22.22  77.78\n", "", "0.00  100.00\n"] ∧
    (main (table_world example_c1 example_c2 example_sh)
        ["prog", "-l", "log", "vol1", "vol2", "5", "12"]).map
        (fun r => log_ok false r.trace)
      = some false ∧
    (main (table_world example_c1 example_c2 example_sh)
        ["prog", "-l", "log", "vol1", "vol2", "5", "12"]).map (fun r => r.status)
      = some Status.undefined := by
  refine ⟨?_, ?_, ?_, ?_⟩ <;> decide!

/-! ## Traces -/

theorem console_append (a b : List Event) : console (a ++ b) = console a ++ console b := by
  simp [console]

theorem log_lines_append (a b : List Event) :
    log_lines (a ++ b) = log_lines a ++ log_lines b := by
  simp [log_lines]

theorem console_stderr (l : List Event) (h : ∀ e ∈ l, Event.isStderr e = true) :
    console l = [] := by
  simp only [console, List.filter_eq_nil_iff]
  intro e he
  have := h e he
  cases e <;> simp_all [Event.isStderr, Event.isStdout]

theorem log_lines_stderr (l : List Event) (h : ∀ e ∈ l, Event.isStderr e = true) :
    log_lines l = [] := by
  simp only [log_lines, List.filter_eq_nil_iff]
  intro e he
  have := h e he
  cases e <;> simp_all [Event.isStderr, Event.isLogWrite]

theorem log_calls_stderr (l : List Event) (h : ∀ e ∈ l, Event.isStderr e = true) :
    l.filter Event.isLogCall = [] := by
  simp only [List.filter_eq_nil_iff]
  intro e he
  have := h e he
  cases e <;> simp_all [Event.isStderr, Event.isLogCall]

theorem timer_text_stderr {MRI : Type} (w : World MRI) :
    ∀ e ∈ timer_text w, Event.isStderr e = true := by
  intro e he
  unfold timer_text at he
  by_cases hv : w.DIAG_VERBOSE_ON = true
  · simp [hv] at he
    subst he
    rfl
  · simp [hv] at he

theorem get_option_out (g g1 : Globals) (argv : List String) (nargs : Nat)
    (o : List Event) (h : get_option g argv = OptResult.ret nargs g1 o) :
    ∀ e ∈ o, Event.isStderr e = true := by
  unfold get_option at h
  simp only at h
  split_ifs at h <;> simp at h
  · obtain ⟨_, _, rfl⟩ := h; simp
  · obtain ⟨_, _, rfl⟩ := h; simp
  · obtain ⟨_, _, rfl⟩ := h; simp [Event.isStderr]

theorem option_loop_out : ∀ (fuel : Nat) (g : Globals) (argv : List String)
    (out : List Event) (g1 : Globals) (av : List String) (out1 : List Event),
    option_loop fuel g argv out = some (LoopResult.done g1 av out1) →
    ∃ notes, out1 = out ++ notes ∧ ∀ e ∈ notes, Event.isStderr e = true := by
  intro fuel
  induction fuel with
  | zero => intro g argv out g1 av out1 h; simp [option_loop] at h
  | succ fuel ih =>
    intro g argv out g1 av out1 h
    rw [option_loop] at h
    split_ifs at h with hc
    · cases hg : get_option g argv with
      | halt r => rw [hg] at h; simp at h
      | ret nargs g2 o =>
        rw [hg] at h
        simp only at h
        obtain ⟨notes, hn, hs⟩ := ih _ _ _ _ _ _ h
        refine ⟨o ++ notes, by rw [hn, List.append_assoc], ?_⟩
        intro e he
        rcases List.mem_append.mp he with he | he
        · exact get_option_out g g2 argv nargs o hg e he
        · exact hs e he
    · simp at h
      obtain ⟨_, _, rfl⟩ := h
      exact ⟨[], by simp, by simp⟩

theorem main_of_mode_entry {MRI : Type} (w : World MRI) (argv : List String)
    (g : Globals) (mri1 mri2 : MRI) (log_fp : Bool) (labels : List String)
    (h : mode_entry w argv = some (g, mri1, mri2, log_fp, labels)) :
    ∃ pre, main w argv = some (finish w mri1 mri2 g log_fp labels pre) ∧
      console pre = [] ∧ log_lines pre = [] ∧ log_fp = g.log_fname.isSome ∧
      pre.filter Event.isLogCall
        = (match g.log_fname with
           | some fname => [Event.fopen fname "a+"]
           | none => []) := by
  unfold mode_entry at h
  cases hloop : option_loop (argv.length + 1) (init_globals argv) argv [] with
  | none => rw [hloop] at h; simp at h
  | some res =>
    rw [hloop] at h
    match res, hloop, h with
    | LoopResult.halt r, _, h => simp at h
    | LoopResult.done g0 [] out, _, h => simp at h
    | LoopResult.done g0 [_] out, _, h => simp at h
    | LoopResult.done g0 [_, _] out, _, h => simp at h
    | LoopResult.done g0 (a1 :: f1 :: f2 :: labels0) out, hloop, h =>
      obtain ⟨notes, hn, hs⟩ := option_loop_out _ _ _ _ _ _ _ hloop
      simp only [List.nil_append] at hn
      subst hn
      simp only at h
      cases h1 : w.MRIread f1 with
      | none => rw [h1] at h; simp at h
      | some m1 =>
        cases h2 : w.MRIread f2 with
        | none => rw [h1, h2] at h; simp at h
        | some m2 =>
          rw [h1, h2] at h
          simp only at h
          cases h3 : g0.log_fname with
          | none =>
            rw [h3] at h
            simp only [Option.some.injEq, Prod.mk.injEq] at h
            obtain ⟨rfl, rfl, rfl, rfl, rfl⟩ := h
            refine ⟨out ++ [Event.MRIread f1, Event.MRIread f2], ?_, ?_, ?_, by simp [h3], ?_⟩
            · simp [main, hloop, main_body, h1, h2, h3]
            · rw [console_append, console_stderr out hs]; rfl
            · rw [log_lines_append, log_lines_stderr out hs]; rfl
            · rw [List.filter_append, log_calls_stderr out hs, h3]; rfl
          | some fname =>
            rw [h3] at h
            simp only at h
            by_cases h4 : w.fopen fname "a+" = true
            · rw [if_pos h4] at h
              simp only [Option.some.injEq, Prod.mk.injEq] at h
              obtain ⟨rfl, rfl, rfl, rfl, rfl⟩ := h
              refine ⟨out ++ [Event.MRIread f1, Event.MRIread f2, Event.fopen fname "a+"],
                ?_, ?_, ?_, by simp [h3], ?_⟩
              · simp [main, hloop, main_body, h1, h2, h3, h4]
              · rw [console_append, console_stderr out hs]; rfl
              · rw [log_lines_append, log_lines_stderr out hs]; rfl
              · rw [List.filter_append, log_calls_stderr out hs, h3]; rfl
            · rw [if_neg h4] at h
              simp at h

/-! ## The scan over all labels -/

theorem all_loop_eq {MRI : Type} (w : World MRI) (mri1 mri2 : MRI) (log_fp : Bool) :
    ∀ (fuel lno : Nat), lno + fuel ≤ 1000 →
    all_loop w mri1 mri2 log_fp fuel (lno : Int)
      = ((List.range' lno fuel).map Int.ofNat).flatMap (all_body w mri1 mri2 log_fp) := by
  intro fuel
  induction fuel with
  | zero => intro lno _; simp [all_loop]
  | succ fuel ih =>
    intro lno h
    have hlt : (lno : Int) < 1000 := by omega
    have hih := ih (lno + 1) (by omega)
    rw [all_loop, if_pos hlt, List.range'_succ, List.map_cons, List.flatMap_cons]
    rw [← hih]
    rfl

theorem flatMap_if {α β : Type} (p : α → Bool) (b : α → List β) (l : List α) :
    l.flatMap (fun x => if p x = true then b x else []) = (l.filter p).flatMap b := by
  induction l with
  | nil => rfl
  | cons x xs ih =>
    rw [List.flatMap_cons, ih]
    by_cases hp : p x = true
    · simp [hp]
    · simp [hp]

theorem flatMap_if_single {α β : Type} (p : α → Bool) (c : α → β) (l : List α) :
    l.flatMap (fun x => if p x = true then [c x] else []) = (l.filter p).map c := by
  induction l with
  | nil => rfl
  | cons x xs ih =>
    rw [List.flatMap_cons, ih]
    by_cases hp : p x = true
    · simp [hp]
    · simp [hp]

theorem all_body_console {MRI : Type} (w : World MRI) (mri1 mri2 : MRI) (log_fp : Bool)
    (l : Int) :
    console (all_body w mri1 mri2 log_fp l)
      = if decide (¬ (w.MRIvoxelsInLabel mri1 l = 0 ∧ w.MRIvoxelsInLabel mri2 l = 0)) = true then
          [Event.printf "volume diff = |(%d - %d)| / %2.1f = %2.2f\n"
             [Arg.int (w.MRIvoxelsInLabel mri1 l), Arg.int (w.MRIvoxelsInLabel mri2 l),
              Arg.flt (FVal.fin (label_mean (w.MRIvoxelsInLabel mri1 l) (w.MRIvoxelsInLabel mri2 l))),
              Arg.flt (volume_diff (w.MRIvoxelsInLabel mri1 l) (w.MRIvoxelsInLabel mri2 l)
                (label_mean (w.MRIvoxelsInLabel mri1 l) (w.MRIvoxelsInLabel mri2 l)))],
           Event.printf "volume overlap = %d / %2.1f = %2.2f\n"
             [Arg.int (w.MRIlabelOverlap mri1 mri2 l),
              Arg.flt (FVal.fin (label_mean (w.MRIvoxelsInLabel mri1 l) (w.MRIvoxelsInLabel mri2 l))),
              Arg.flt (volume_overlap (w.MRIlabelOverlap mri1 mri2 l)
                (label_mean (w.MRIvoxelsInLabel mri1 l) (w.MRIvoxelsInLabel mri2 l)))]]
        else [] := by
  unfold all_body
  by_cases hz : w.MRIvoxelsInLabel mri1 l = 0 ∧ w.MRIvoxelsInLabel mri2 l = 0
  · simp [hz, console]
  · cases log_fp <;> simp [hz, console, Event.isStdout]

theorem all_body_log_lines {MRI : Type} (w : World MRI) (mri1 mri2 : MRI) (l : Int) :
    log_lines (all_body w mri1 mri2 true l)
      = if decide (¬ (w.MRIvoxelsInLabel mri1 l = 0 ∧ w.MRIvoxelsInLabel mri2 l = 0)) = true then
          [Event.fprintf "%d  %2.2f  %2.2f\n"
             [Arg.int l,
              Arg.flt (volume_diff (w.MRIvoxelsInLabel mri1 l) (w.MRIvoxelsInLabel mri2 l)
                (label_mean (w.MRIvoxelsInLabel mri1 l) (w.MRIvoxelsInLabel mri2 l))),
              Arg.flt (volume_overlap (w.MRIlabelOverlap mri1 mri2 l)
                (label_mean (w.MRIvoxelsInLabel mri1 l) (w.MRIvoxelsInLabel mri2 l)))]]
        else [] := by
  unfold all_body
  by_cases hz : w.MRIvoxelsInLabel mri1 l = 0 ∧ w.MRIvoxelsInLabel mri2 l = 0
  · simp [hz, log_lines]
  · simp [hz, log_lines, Event.isLogWrite]

theorem all_body_no_log {MRI : Type} (w : World MRI) (mri1 mri2 : MRI) (l : Int) :
    log_lines (all_body w mri1 mri2 false l) = [] := by
  unfold all_body
  by_cases hz : w.MRIvoxelsInLabel mri1 l = 0 ∧ w.MRIvoxelsInLabel mri2 l = 0
  · simp [hz, log_lines]
  · simp [hz, log_lines, Event.isLogWrite]

theorem all_loop_console {MRI : Type} (w : World MRI) (mri1 mri2 : MRI) (log_fp : Bool) :
    console (all_loop w mri1 mri2 log_fp 1000 0)
      = (reported_labels w mri1 mri2).flatMap (fun l =>
          [Event.printf "volume diff = |(%d - %d)| / %2.1f = %2.2f\n"
             [Arg.int (w.MRIvoxelsInLabel mri1 l), Arg.int (w.MRIvoxelsInLabel mri2 l),
              Arg.flt (FVal.fin (label_mean (w.MRIvoxelsInLabel mri1 l) (w.MRIvoxelsInLabel mri2 l))),
              Arg.flt (volume_diff (w.MRIvoxelsInLabel mri1 l) (w.MRIvoxelsInLabel mri2 l)
                (label_mean (w.MRIvoxelsInLabel mri1 l) (w.MRIvoxelsInLabel mri2 l)))],
           Event.printf "volume overlap = %d / %2.1f = %2.2f\n"
             [Arg.int (w.MRIlabelOverlap mri1 mri2 l),
              Arg.flt (FVal.fin (label_mean (w.MRIvoxelsInLabel mri1 l) (w.MRIvoxelsInLabel mri2 l))),
              Arg.flt (volume_overlap (w.MRIlabelOverlap mri1 mri2 l)
                (label_mean (w.MRIvoxelsInLabel mri1 l) (w.MRIvoxelsInLabel mri2 l)))]]) := by
  have h := all_loop_eq w mri1 mri2 log_fp 1000 0 (by omega)
  rw [Nat.cast_zero] at h
  rw [h, ← List.range_eq_range', console, List.filter_flatMap, reported_labels,
    ← flatMap_if]
  congr 1
  funext l
  exact all_body_console w mri1 mri2 log_fp l

theorem all_loop_log_lines {MRI : Type} (w : World MRI) (mri1 mri2 : MRI) (log_fp : Bool) :
    log_lines (all_loop w mri1 mri2 log_fp 1000 0)
      = if log_fp = true then
          (reported_labels w mri1 mri2).map (fun l =>
            Event.fprintf "%d  %2.2f  %2.2f\n"
              [Arg.int l,
               Arg.flt (volume_diff (w.MRIvoxelsInLabel mri1 l) (w.MRIvoxelsInLabel mri2 l)
                 (label_mean (w.MRIvoxelsInLabel mri1 l) (w.MRIvoxelsInLabel mri2 l))),
               Arg.flt (volume_overlap (w.MRIlabelOverlap mri1 mri2 l)
                 (label_mean (w.MRIvoxelsInLabel mri1 l) (w.MRIvoxelsInLabel mri2 l)))])
        else [] := by
  have h := all_loop_eq w mri1 mri2 log_fp 1000 0 (by omega)
  rw [Nat.cast_zero] at h
  rw [h, ← List.range_eq_range', log_lines, List.filter_flatMap]
  cases log_fp with
  | true =>
    rw [if_pos rfl, reported_labels, ← flatMap_if_single]
    congr 1
    funext l
    exact all_body_log_lines w mri1 mri2 l
  | false =>
    simp only [Bool.false_eq_true, if_false]
    have : (fun l => List.filter Event.isLogWrite (all_body w mri1 mri2 false l))
        = fun _ => [] := by
      funext l
      exact all_body_no_log w mri1 mri2 l
    rw [this]
    simp

theorem mem_reported_labels {MRI : Type} (w : World MRI) (mri1 mri2 : MRI) (l : Int) :
    l ∈ reported_labels w mri1 mri2 ↔
      (0 ≤ l ∧ l < 1000 ∧
        ¬ (w.MRIvoxelsInLabel mri1 l = 0 ∧ w.MRIvoxelsInLabel mri2 l = 0)) := by
  simp only [reported_labels, List.mem_filter, List.mem_map, List.mem_range,
    decide_eq_true_eq]
  constructor
  · rintro ⟨⟨n, hn, rfl⟩, h⟩
    exact ⟨Int.ofNat_nonneg n, by simp only [Int.ofNat_eq_coe]; omega, h⟩
  · rintro ⟨h0, h1, h⟩
    exact ⟨⟨l.toNat, by omega, by simp [Int.toNat_of_nonneg h0]⟩, h⟩

theorem reported_labels_ascending {MRI : Type} (w : World MRI) (mri1 mri2 : MRI) :
    (reported_labels w mri1 mri2).Pairwise (fun a b => a < b) := by
  unfold reported_labels
  apply List.Pairwise.filter
  apply List.Pairwise.map Int.ofNat _ (List.pairwise_lt_range 1000)
  intro a b hab
  exact Int.ofNat_lt.mpr hab

theorem finish_all {MRI : Type} (w : World MRI) (mri1 mri2 : MRI) (g : Globals)
    (log_fp : Bool) (labels : List String) (pre : List Event) (hall : g.all_flag ≠ 0) :
    finish w mri1 mri2 g log_fp labels pre
      = ⟨pre ++ (all_loop w mri1 mri2 log_fp 1000 0
            ++ (if log_fp = true then [Event.fclose] else [])) ++ timer_text w,
         Status.exit 0⟩ := by
  simp [finish, run_mode, hall]

/-- C2: in the scan over all labels (`-a`), the labels reported are exactly the
ids `l` of 0..999 whose two voxel counts are not both zero, in ascending order:
the console output is one block of two lines per such label and nothing else,
and, when a log file was given, the log receives one line per such label, which
starts with the label id, and nothing else. -/
theorem exhaustive_report {MRI : Type} (w : World MRI) (argv : List String)
    (g : Globals) (mri1 mri2 : MRI) (log_fp : Bool) (labels : List String)
    (h : mode_entry w argv = some (g, mri1, mri2, log_fp, labels))
    (hall : g.all_flag ≠ 0) :
    ∃ r, main w argv = some r ∧ r.status = Status.exit 0 ∧
      console r.trace
        = (reported_labels w mri1 mri2).flatMap (fun l =>
            [Event.printf "volume diff = |(%d - %d)| / %2.1f = %2.2f\n"
               [Arg.int (w.MRIvoxelsInLabel mri1 l), Arg.int (w.MRIvoxelsInLabel mri2 l),
                Arg.flt (FVal.fin (label_mean (w.MRIvoxelsInLabel mri1 l) (w.MRIvoxelsInLabel mri2 l))),
                Arg.flt (volume_diff (w.MRIvoxelsInLabel mri1 l) (w.MRIvoxelsInLabel mri2 l)
                  (label_mean (w.MRIvoxelsInLabel mri1 l) (w.MRIvoxelsInLabel mri2 l)))],
             Event.printf "volume overlap = %d / %2.1f = %2.2f\n"
               [Arg.int (w.MRIlabelOverlap mri1 mri2 l),
                Arg.flt (FVal.fin (label_mean (w.MRIvoxelsInLabel mri1 l) (w.MRIvoxelsInLabel mri2 l))),
                Arg.flt (volume_overlap (w.MRIlabelOverlap mri1 mri2 l)
                  (label_mean (w.MRIvoxelsInLabel mri1 l) (w.MRIvoxelsInLabel mri2 l)))]]) ∧
      log_fp = g.log_fname.isSome ∧
      log_lines r.trace
        = (if log_fp = true then
            (reported_labels w mri1 mri2).map (fun l =>
              Event.fprintf "%d  %2.2f  %2.2f\n"
                [Arg.int l,
                 Arg.flt (volume_diff (w.MRIvoxelsInLabel mri1 l) (w.MRIvoxelsInLabel mri2 l)
                   (label_mean (w.MRIvoxelsInLabel mri1 l) (w.MRIvoxelsInLabel mri2 l))),
                 Arg.flt (volume_overlap (w.MRIlabelOverlap mri1 mri2 l)
                   (label_mean (w.MRIvoxelsInLabel mri1 l) (w.MRIvoxelsInLabel mri2 l)))])
           else []) ∧
      (∀ l, l ∈ reported_labels w mri1 mri2 ↔
        (0 ≤ l ∧ l < 1000 ∧
          ¬ (w.MRIvoxelsInLabel mri1 l = 0 ∧ w.MRIvoxelsInLabel mri2 l = 0))) ∧
      (reported_labels w mri1 mri2).Pairwise (fun a b => a < b) := by
  obtain ⟨pre, hmain, hc, hl, hlf, _⟩ := main_of_mode_entry w argv g mri1 mri2 log_fp labels h
  rw [finish_all w mri1 mri2 g log_fp labels pre hall] at hmain
  refine ⟨_, hmain, rfl, ?_, hlf, ?_, mem_reported_labels w mri1 mri2,
    reported_labels_ascending w mri1 mri2⟩
  · simp only [console_append, hc, List.nil_append,
      console_stderr _ (timer_text_stderr w), List.append_nil, all_loop_console]
    cases log_fp <;> simp [console, Event.isStdout]
  · simp only [log_lines_append, hl, List.nil_append,
      log_lines_stderr _ (timer_text_stderr w), List.append_nil, all_loop_log_lines]
    cases log_fp <;> simp [log_lines, Event.isLogWrite]

theorem exhaustive_report_witness :
    mode_entry (table_world example_c1 example_c2 example_sh)
        ["prog", "-a", "-l", "log", "vol1", "vol2"]
      = some (⟨some "prog", some "log", 0, 1⟩, true, false, true, []) ∧
    (1 : Int) ≠ 0 ∧
    ∃ r, main (table_world example_c1 example_c2 example_sh)
        ["prog", "-a", "-l", "log", "vol1", "vol2"] = some r ∧
      (log_lines r.trace).length
        = (reported_labels (table_world example_c1 example_c2 example_sh) true false).length := by
  refine ⟨by decide, by decide, ?_⟩
  obtain ⟨r, h1, _, _, _, h2, _⟩ :=
    exhaustive_report (table_world example_c1 example_c2 example_sh)
      ["prog", "-a", "-l", "log", "vol1", "vol2"] ⟨some "prog", some "log", 0, 1⟩
      true false true [] (by decide) (by decide)
  exact ⟨r, h1, by rw [h2]; simp⟩

/-! ## The loop over the label arguments -/

theorem label_console_not_total {MRI : Type} (w : World MRI) (mri1 mri2 : MRI) (g : Globals)
    (a : String) :
    ∀ e ∈ label_console w mri1 mri2 g a, Event.isTotal e = false := by
  intro e he
  unfold label_console at he
  by_cases hq : g.quiet = 0 <;> simp [hq] at he
  rcases he with rfl | rfl <;> rfl

theorem label_body_not_total {MRI : Type} (w : World MRI) (mri1 mri2 : MRI) (g : Globals)
    (log_fp : Bool) (a : String) :
    ∀ e ∈ label_body w mri1 mri2 g log_fp a, Event.isTotal e = false := by
  intro e he
  unfold label_body at he
  rcases List.mem_append.mp he with he | he
  · exact label_console_not_total w mri1 mri2 g a e he
  · cases log_fp <;> simp [label_log_line] at he
    rcases he with rfl | rfl <;> rfl

theorem log_ok_filter : ∀ (tr : List Event) (isOpen : Bool),
    log_ok isOpen (tr.filter Event.isLogCall) = log_ok isOpen tr := by
  intro tr
  induction tr with
  | nil => intro isOpen; rfl
  | cons e es ih =>
    intro isOpen
    cases e <;> simp [List.filter_cons, Event.isLogCall, log_ok, ih]

theorem all_body_log_calls {MRI : Type} (w : World MRI) (mri1 mri2 : MRI) (log_fp : Bool)
    (l : Int) :
    (all_body w mri1 mri2 log_fp l).filter Event.isLogCall
      = log_lines (all_body w mri1 mri2 log_fp l) := by
  unfold all_body
  by_cases hz : w.MRIvoxelsInLabel mri1 l = 0 ∧ w.MRIvoxelsInLabel mri2 l = 0
  · simp [hz, log_lines]
  · cases log_fp <;> simp [hz, log_lines, Event.isLogCall, Event.isLogWrite]

theorem all_loop_log_calls {MRI : Type} (w : World MRI) (mri1 mri2 : MRI) (log_fp : Bool) :
    ∀ (fuel : Nat) (lno : Int),
    (all_loop w mri1 mri2 log_fp fuel lno).filter Event.isLogCall
      = log_lines (all_loop w mri1 mri2 log_fp fuel lno) := by
  intro fuel
  induction fuel with
  | zero => intro lno; rfl
  | succ fuel ih =>
    intro lno
    rw [all_loop]
    split_ifs
    · rw [List.filter_append, log_lines_append, all_body_log_calls, ih]
    · rfl

theorem log_ok_writes : ∀ (l : List Event), (∀ e ∈ l, Event.isLogWrite e = true) →
    ∀ (tl : List Event), log_ok true (l ++ tl) = log_ok true tl := by
  intro l
  induction l with
  | nil => intro _ tl; rfl
  | cons e es ih =>
    intro h tl
    have he := h e (List.mem_cons_self e es)
    have hes : ∀ x ∈ es, Event.isLogWrite x = true :=
      fun x hx => h x (List.mem_cons_of_mem e hx)
    cases e <;> simp_all [Event.isLogWrite, log_ok]

/-- In the scan over all labels with a log file, the calls on the log handle
are one `fopen`, the log lines, and one `fclose` at the end; every call acts
on an open handle. -/
theorem exhaustive_log_calls {MRI : Type} (w : World MRI) (argv : List String)
    (g : Globals) (mri1 mri2 : MRI) (labels : List String)
    (h : mode_entry w argv = some (g, mri1, mri2, true, labels))
    (hall : g.all_flag ≠ 0) :
    ∃ r fname, main w argv = some r ∧ g.log_fname = some fname ∧
      r.trace.filter Event.isLogCall
        = Event.fopen fname "a+" :: (log_lines r.trace ++ [Event.fclose]) ∧
      log_ok false r.trace = true := by
  obtain ⟨pre, hmain, _, hl, hlf, hpre⟩ := main_of_mode_entry w argv g mri1 mri2 true labels h
  rw [finish_all w mri1 mri2 g true labels pre hall] at hmain
  cases h3 : g.log_fname with
  | none => rw [h3] at hlf; simp at hlf
  | some fname =>
    rw [h3] at hpre
    simp only at hpre
    have hlines : log_lines (pre ++ (all_loop w mri1 mri2 true 1000 0
          ++ (if true = true then [Event.fclose] else [])) ++ timer_text w)
        = log_lines (all_loop w mri1 mri2 true 1000 0) := by
      simp only [log_lines_append, hl, List.nil_append,
        log_lines_stderr _ (timer_text_stderr w), List.append_nil]
      simp [log_lines, Event.isLogWrite]
    have hcalls : (pre ++ (all_loop w mri1 mri2 true 1000 0
          ++ (if true = true then [Event.fclose] else [])) ++ timer_text w).filter
          Event.isLogCall
        = Event.fopen fname "a+" ::
            (log_lines (all_loop w mri1 mri2 true 1000 0) ++ [Event.fclose]) := by
      simp only [List.filter_append, hpre, log_calls_stderr _ (timer_text_stderr w),
        List.append_nil, all_loop_log_calls, List.singleton_append]
      simp [Event.isLogCall]
    refine ⟨_, fname, hmain, rfl, by rw [hcalls, hlines], ?_⟩
    rw [← log_ok_filter, hcalls]
    simp only [log_ok]
    rw [log_ok_writes _ (by
      intro e he
      simp only [log_lines, List.mem_filter] at he
      exact he.2)]
    rfl

end MriComputeOverlap
